import Mathlib

/-!
Verification development for the altur-vocode streaming core.

The Python sources under `vocode/streaming/` are shallowly embedded as
executable Lean definitions; theorems at the end of the file settle the
specification claims against those definitions.

Conventions used throughout the embedding:
* Python `bytes` is modelled as `List Nat`.
* Python `float` time values are modelled as `Int` (only ordering and
  arithmetic on whole numbers matter here).
* Redis is modelled as an explicit state record of association lists,
  with the usual Redis semantics of missing counters counting as `0`.
* `async` functions are modelled as pure state transformers; awaited
  network effects are made explicit where a claim is about them.
-/

namespace Vocode

/-! ## Association-list helpers (model of the Redis keyspace) -/

/-- Look up `k` in an association list. -/
def alGet {κ α : Type} [BEq κ] (l : List (κ × α)) (k : κ) : Option α :=
  match l.find? (fun p => p.1 == k) with
  | some p => some p.2
  | none => none

/-- Insert or overwrite the binding of `k`. -/
def alSet {κ α : Type} [BEq κ] (l : List (κ × α)) (k : κ) (v : α) :
    List (κ × α) :=
  match l with
  | [] => [(k, v)]
  | p :: rest => if p.1 == k then (k, v) :: rest else p :: alSet rest k v

/-- Remove the binding of `k`. -/
def alDel {κ α : Type} [BEq κ] (l : List (κ × α)) (k : κ) : List (κ × α) :=
  l.filter (fun p => !(p.1 == k))

/-! ## Python string primitives

Models of the Python `str` methods the sources use, written over
character lists so that every definition evaluates inside the kernel. -/

/-- Python `str.split(sep)` for a one-character separator. -/
def pySplitChar (sep : Char) : List Char → List (List Char)
  | [] => [[]]
  | c :: rest =>
    if c = sep then [] :: pySplitChar sep rest
    else
      match pySplitChar sep rest with
      | [] => [[c]]
      | g :: gs => (c :: g) :: gs

def pySplit (s : String) (sep : Char) : List String :=
  (pySplitChar sep s.data).map List.asString

/-- The default whitespace set of Python `str.strip()`. -/
def isPyWhitespace (c : Char) : Bool :=
  c == ' ' || c == '\t' || c == '\n' || c == '\x0d' || c == '\x0b' || c == '\x0c'

/-- Python `str.strip()`. -/
def pyStrip (s : String) : String :=
  ((s.data.dropWhile isPyWhitespace).reverse.dropWhile isPyWhitespace).reverse.asString

/-- Python `str.replace(pat, rep)`: replace all non-overlapping
occurrences left to right.  Structural on a fuel initialized to the
string length (each step consumes at least one character whenever the
pattern is non-empty, the only case that occurs). -/
def pyReplaceAux (pat rep : List Char) : Nat → List Char → List Char
  | _, [] => []
  | 0, l => l
  | fuel + 1, c :: rest =>
    if pat.isPrefixOf (c :: rest) && !pat.isEmpty then
      rep ++ pyReplaceAux pat rep fuel ((c :: rest).drop pat.length)
    else c :: pyReplaceAux pat rep fuel rest

def pyReplace (s pat rep : String) : String :=
  (pyReplaceAux pat.data rep.data s.data.length s.data).asString

/-! ## Redis state (`vocode.streaming.utils.redis` backing store)

The audio cache uses three disjoint key shapes: raw byte values
(`audio_cache:{lang}:{voice}:{text}`), integer counters
(`audio_cache:size:{lang}`) and hashes (`audio_cache:info:{lang}`).
They are modelled as separate maps. -/

structure RedisState where
  data : List (String × List Nat)
  counters : List (String × Int)
  hashes : List (String × List (String × Int))
  ttls : List (String × Int)
  deriving Repr, DecidableEq

def RedisState.empty : RedisState := ⟨[], [], [], []⟩

/-- `redis.get` on a byte key. -/
def RedisState.get (st : RedisState) (k : String) : Option (List Nat) :=
  alGet st.data k

/-- `redis.set` on a byte key. -/
def RedisState.set (st : RedisState) (k : String) (v : List Nat) : RedisState :=
  { st with data := alSet st.data k v }

/-- `redis.expire`: records the TTL; expiry itself is not modelled (no
time passage happens inside any claim). -/
def RedisState.expire (st : RedisState) (k : String) (ttl : Int) : RedisState :=
  { st with ttls := alSet st.ttls k ttl }

/-- `redis.get` on a counter key, as read by `int(... or 0)`:
a missing counter reads as `0`. -/
def RedisState.getCounter (st : RedisState) (k : String) : Int :=
  (alGet st.counters k).getD 0

/-- `redis.incrby` (missing key counts as 0, per Redis semantics). -/
def RedisState.incrby (st : RedisState) (k : String) (n : Int) : RedisState :=
  { st with counters := alSet st.counters k (st.getCounter k + n) }

/-- `redis.decrby`. -/
def RedisState.decrby (st : RedisState) (k : String) (n : Int) : RedisState :=
  st.incrby k (-n)

/-- `redis.hget`. -/
def RedisState.hget (st : RedisState) (k field : String) : Option Int :=
  match alGet st.hashes k with
  | some h => alGet h field
  | none => none

/-- `redis.hset` (creates the hash if missing). -/
def RedisState.hset (st : RedisState) (k field : String) (v : Int) : RedisState :=
  let h := (alGet st.hashes k).getD []
  { st with hashes := alSet st.hashes k (alSet h field v) }

/-- `redis.hincrby` (missing field counts as 0). -/
def RedisState.hincrby (st : RedisState) (k field : String) (n : Int) : RedisState :=
  let h := (alGet st.hashes k).getD []
  let cur := (alGet h field).getD 0
  { st with hashes := alSet st.hashes k (alSet h field (cur + n)) }

/-! ## AudioCache (`vocode/streaming/synthesizer/audio_cache.py`) -/

/-- `AudioCache.default_ttl` (4 hours). -/
def defaultTtl : Int := 3600 * 4

/-- `AudioCache.language_max_cache_size`. -/
def language_max_cache_size : List (String × Int) :=
  [("es", 1024 * 1024 * 1536),
   ("en", 1024 * 1024 * 512),
   ("pt", 1024 * 1024 * 512),
   ("fr", 1024 * 1024 * 512),
   ("default", 1024 * 1024 * 512)]

/-- `AudioCache.get_size_key`. -/
def get_size_key (language : String) : String :=
  if (alGet language_max_cache_size language).isSome then
    "audio_cache:size:" ++ language
  else "audio_cache:size:default"

/-- `AudioCache.get_cache_info_key`. -/
def get_cache_info_key (language : String) : String :=
  if (alGet language_max_cache_size language).isSome then
    "audio_cache:info:" ++ language
  else "audio_cache:info:default"

/-- `AudioCache.get_audio_key`. -/
def get_audio_key (language voice_identifier text : String) : String :=
  "audio_cache:" ++ language ++ ":" ++ voice_identifier ++ ":" ++ text

/-- `AudioCache.get_max_cache_size`. -/
def get_max_cache_size (language : String) : Int :=
  match alGet language_max_cache_size language with
  | some n => n
  | none => (alGet language_max_cache_size "default").getD 0

/-- `AudioCache.update_access_time`: set `last_access` and increment
`popularity` in the language's info hash.  The language is recovered from
the key via `audio_key.split(":")[1]`; an out-of-range index returns with
no update (the `IndexError` branch). -/
def update_access_time (st : RedisState) (now : Int) (audio_key : String) :
    RedisState :=
  match (pySplit audio_key ':').get? 1 with
  | none => st
  | some language =>
    let cache_info_key := get_cache_info_key language
    let st := st.hset cache_info_key (audio_key ++ ":last_access") now
    st.hincrby cache_info_key (audio_key ++ ":popularity") 1

/-- `AudioCache.update_cache_size`: record the item size and add it to the
language's size counter. -/
def update_cache_size (st : RedisState) (audio_key : String) (size : Int) :
    RedisState :=
  match (pySplit audio_key ':').get? 1 with
  | none => st
  | some language =>
    let cache_info_key := get_cache_info_key language
    let size_key := get_size_key language
    let st := st.hset cache_info_key (audio_key ++ ":size") size
    st.incrby size_key size

/-- `AudioCache.ensure_cache_size`: reads the current size counter and,
when `current + new_item_size` exceeds the configured maximum, logs a
warning; it then returns without modifying anything (no eviction is
performed by the code). -/
def ensure_cache_size (st : RedisState) (language : String)
    (new_item_size : Int) : RedisState :=
  let current_size := st.getCounter (get_size_key language)
  let _wouldExceed := current_size + new_item_size > get_max_cache_size language
  st

/-- `AudioCache.get_audio`.  Returns the cached bytes (updating access
metadata) or `none`.  Python's `if audio_data:` is falsy both for a
missing key and for an empty byte string, so an empty stored value is a
miss with no metadata update. -/
def get_audio (disabled : Bool) (st : RedisState) (now : Int)
    (language voice_identifier text : String) :
    Option (List Nat) × RedisState :=
  if disabled then (none, st)
  else
    let audio_key := get_audio_key language voice_identifier text
    match st.get audio_key with
    | some audio_data =>
      if audio_data.isEmpty then (none, st)
      else (some audio_data, update_access_time st now audio_key)
    | none => (none, st)

/-- `AudioCache.set_audio`. -/
def set_audio (disabled : Bool) (st : RedisState) (now : Int)
    (language voice_identifier text : String) (audio : List Nat)
    (ttl : Option Int) : RedisState :=
  if disabled then st
  else
    let audio_key := get_audio_key language voice_identifier text
    let st :=
      match st.hget (get_cache_info_key language) (audio_key ++ ":size") with
      | some existing_size => st.decrby (get_size_key language) existing_size
      | none => st
    let audio_size : Int := audio.length
    let st := ensure_cache_size st language audio_size
    let st := st.set audio_key audio
    let actual_ttl := ttl.getD defaultTtl
    let st := st.expire audio_key actual_ttl
    let st := update_access_time st now audio_key
    update_cache_size st audio_key audio_size

/-- `AudioCache.clear_cache`. -/
def clear_cache (disabled : Bool) (st : RedisState) (language : String) :
    RedisState :=
  if disabled then st
  else
    let pat := "audio_cache:" ++ language ++ ":"
    let st : RedisState :=
      { st with data := st.data.filter (fun p => !(pat.isPrefixOf p.1)) }
    let st := { st with counters := alSet st.counters (get_size_key language) 0 }
    { st with hashes := alDel st.hashes (get_cache_info_key language) }

/-! ## Transcript event logs (`vocode/streaming/models/transcript.py`)

The transcript model module itself is not part of the sources; the event
shapes are modelled from the spec's data model: `Message{sender, text}`,
`ActionStart{tool_call_id, action_type, action_input, trigger}`,
`ActionFinish{tool_call_id, result_text}`, `ConferenceEvent{text}`.
`meta` stands for the remaining (opaque) fields of a `Message` so that
deep-copying "every other field" is observable.  `phrase_based` records
whether `is_phrase_based_action_event_log` holds for the entry (the
action's trigger is phrase-based), and `params_json` is the value of
`action_input.params.json()`. -/

inductive Sender where
  | human
  | bot
  deriving Repr, DecidableEq

inductive EventLog where
  | message (sender : Sender) (text : String) (meta : Nat)
  | actionStart (tool_call_id : Option String) (action_type : String)
      (params_json : String) (phrase_based : Bool)
  | actionFinish (tool_call_id : Option String) (result_text : String)
      (phrase_based : Bool)
  | conference (text : String)
  deriving Repr, DecidableEq

/-- Python truthiness of an `Optional[str]`: `None` and `""` are falsy. -/
def optStrTruthy : Option String → Bool
  | some s => !s.isEmpty
  | none => false

/-! ## Chat messages (OpenAI message dictionaries)

Only the fields the projector actually writes are modelled; a field the
projector leaves absent from the Python dict is `none` / `[]` here. -/

inductive ChatRole where
  | system
  | user
  | assistant
  | tool
  deriving Repr, DecidableEq

structure ToolCallEntry where
  id : String
  name : String
  arguments : String
  deriving Repr, DecidableEq

structure ChatMessage where
  role : ChatRole
  content : Option String
  tool_calls : List ToolCallEntry
  tool_call_id : Option String
  deriving Repr, DecidableEq

/-! ## Projector (`vocode/streaming/agent/openai_utils.py`) -/

/-- First pass of `get_openai_chat_messages_from_transcript`: the
`tool_call_to_response` dictionary, mapping each truthy `tool_call_id` of
a non-phrase-based `ActionFinish` to that event (represented by its
result text, i.e. `to_string(include_header=False)`); later entries
overwrite earlier ones, as Python dict assignment does. -/
def tool_call_to_response (logs : List EventLog) : List (String × String) :=
  logs.foldl
    (fun acc e =>
      match e with
      | .actionFinish (some id) txt false =>
        if id.isEmpty then acc else alSet acc id txt
      | _ => acc)
    []

/-- First pass companion dictionary `action_starts_by_id` (collected by
the code but never read afterwards). -/
def action_starts_by_id (logs : List EventLog) : List (String × EventLog) :=
  logs.foldl
    (fun acc e =>
      match e with
      | .actionStart (some id) _ _ false =>
        if id.isEmpty then acc else alSet acc id e
      | _ => acc)
    []

/-- The look-ahead loop inside the BOT-message branch: scan the events
after the current one (the caller passes at most the next four, per
`j < i + 5`), returning the first non-phrase-based `ActionStart` whose
truthy `tool_call_id` has a matching response and is not yet processed.
Scanning stops at a HUMAN message; every other entry is stepped over. -/
def findAssociated (resp : List (String × String)) (processed : List String) :
    List EventLog → Option (String × String × String)
  | [] => none
  | .actionStart idOpt ty ps phrase :: rest =>
    if !phrase && optStrTruthy idOpt &&
        (alGet resp (idOpt.getD "")).isSome &&
        !(processed.contains (idOpt.getD "")) then
      some (idOpt.getD "", ty, ps)
    else if !phrase then findAssociated resp processed rest
    else findAssociated resp processed rest
  | .message .human _ _ :: _ => none
  | _ :: rest => findAssociated resp processed rest

/-- Second pass of `get_openai_chat_messages_from_transcript`: walk the
merged log (the `while i < len` loop; every branch advances `i` by one)
carrying the `processed_tool_calls` set.  `Message.to_string` /
`ActionFinish.to_string` / `ConferenceEvent.to_string` are modelled from
the spec as the entry's text. -/
def buildChatMessages (resp : List (String × String)) :
    List EventLog → List String → List ChatMessage
  | [], _ => []
  | e :: rest, processed =>
    match e with
    | .message sender text _ =>
      if (pyStrip text).length == 0 then buildChatMessages resp rest processed
      else
        match sender with
        | .bot =>
          match findAssociated resp processed (rest.take 4) with
          | some (id, ty, ps) =>
            let asst : ChatMessage := ⟨.assistant, some text, [⟨id, ty, ps⟩], none⟩
            let toolMsgs : List ChatMessage :=
              match alGet resp id with
              | some result => [⟨.tool, some result, [], some id⟩]
              | none => []
            asst :: toolMsgs ++ buildChatMessages resp rest (id :: processed)
          | none =>
            (⟨.assistant, some text, [], none⟩ : ChatMessage) ::
              buildChatMessages resp rest processed
        | .human =>
          (⟨.user, some text, [], none⟩ : ChatMessage) ::
            buildChatMessages resp rest processed
    | .actionStart idOpt ty ps phrase =>
      if phrase || !(optStrTruthy idOpt) || processed.contains (idOpt.getD "") then
        buildChatMessages resp rest processed
      else
        match alGet resp (idOpt.getD "") with
        | some result =>
          (⟨.assistant, none, [⟨idOpt.getD "", ty, ps⟩], none⟩ : ChatMessage) ::
            (⟨.tool, some result, [], some (idOpt.getD "")⟩ : ChatMessage) ::
              buildChatMessages resp rest ((idOpt.getD "") :: processed)
        | none => buildChatMessages resp rest processed
    | .conference text =>
      (⟨.user, some text, [], none⟩ : ChatMessage) ::
        buildChatMessages resp rest processed
    | .actionFinish _ _ _ => buildChatMessages resp rest processed

/-- `get_openai_chat_messages_from_transcript`. -/
def get_openai_chat_messages_from_transcript (merged_event_logs : List EventLog)
    (prompt_preamble : String) : List ChatMessage :=
  (⟨.system, some prompt_preamble, [], none⟩ : ChatMessage) ::
    buildChatMessages (tool_call_to_response merged_event_logs) merged_event_logs []

/-! ## `merge_event_logs` -/

/-- Is the entry a BOT `Message`? (the inner-while guard). -/
def isBotMessage : EventLog → Bool
  | .message .bot _ _ => true
  | _ => false

/-- `event_log.text` of a buffered entry. -/
def eventText : EventLog → String
  | .message _ t _ => t
  | .actionStart _ _ _ _ => ""
  | .actionFinish _ _ _ => ""
  | .conference t => t

/-- `deepcopy(bot_messages_buffer[-1])` with `text` replaced by the
space-join of the buffered texts. -/
def mergedBotMessage (buffer : List EventLog) : EventLog :=
  match buffer.getLast? with
  | some (.message s _ meta) => .message s (" ".intercalate (buffer.map eventText)) meta
  | _ => .message .bot (" ".intercalate (buffer.map eventText)) 0

/-- The outer `while idx < len(event_logs)` loop of `merge_event_logs`:
the inner while collects the maximal run of BOT messages starting at
`idx` (`takeWhile` over the suffix); a non-empty run is replaced by the
merged message, otherwise the current entry passes through. -/
def mergeGo (logs : List EventLog) : Nat → Nat → List EventLog
  | _, 0 => []
  | idx, fuel + 1 =>
    if h : idx < logs.length then
      let buffer := (logs.drop idx).takeWhile isBotMessage
      if buffer.isEmpty then
        logs.get ⟨idx, h⟩ :: mergeGo logs (idx + 1) fuel
      else
        mergedBotMessage buffer :: mergeGo logs (idx + buffer.length) fuel
    else []

/-- `merge_event_logs`.  The loop advances `idx` by at least one per
iteration, so a fuel of `logs.length` runs it to completion. -/
def merge_event_logs (event_logs : List EventLog) : List EventLog :=
  mergeGo event_logs 0 event_logs.length

/-- Claim-side restatement of merging (C9): each maximal run of
consecutive BOT messages becomes one message whose text is the
space-join of the run's texts and whose other fields are those of the
run's last message; everything else passes through in order. -/
def mergeSpecMerged (run : List EventLog) : EventLog :=
  match run.getLast? with
  | some (.message s _ meta) =>
    .message s (" ".intercalate (run.map eventText)) meta
  | _ => .message .bot (" ".intercalate (run.map eventText)) 0

def mergeSpecFn : List EventLog → List EventLog
  | [] => []
  | e :: es =>
    if isBotMessage e then
      mergeSpecMerged ((e :: es).takeWhile isBotMessage) ::
        mergeSpecFn (es.dropWhile isBotMessage)
    else e :: mergeSpecFn es
termination_by l => l.length
decreasing_by
  · have h2 := (List.dropWhile_sublist (l := es) isBotMessage).length_le
    simp only [List.length_cons]
    omega
  · simp

/-! ## Token accounting (`vocode/streaming/agent/token_utils.py`)

`tiktoken` is an external library; its encoder enters the model as an
uninterpreted length function `encodeLen : String → Nat`, the length of
`encoding.encode s`.  The four models accepted by `get_tokenizer_info`
all use `tokens_per_message = 3` and `tokens_per_name = 1`. -/

def CHAT_GPT_MAX_TOKENS : List (String × Int) :=
  [("gpt-4o", 127940), ("gpt-4o-mini", 127940), ("gpt-4.1", 999000),
   ("gpt-4.1-mini", 999000), ("gpt-4.1-nano", 999000)]

/-- `get_chat_gpt_max_tokens`. -/
def get_chat_gpt_max_tokens (model_name : String) : Int :=
  let name :=
    if "ft:".data.isPrefixOf model_name.data then
      ((pySplit model_name ':').get? 1).getD model_name
    else model_name
  match alGet CHAT_GPT_MAX_TOKENS name with
  | some n => n
  | none => 4050

/-- The models for which `get_tokenizer_info` returns tokenizer info
(anything else makes `num_tokens_from_messages` raise). -/
def supportedModels : List String :=
  ["gpt-4o-mini", "gpt-4.1", "gpt-4.1-mini", "gpt-4.1-nano"]

/-- The OpenAI role strings as serialized in the message dicts. -/
def roleStr : ChatRole → String
  | .system => "system"
  | .user => "user"
  | .assistant => "assistant"
  | .tool => "tool"

/-- `tokens_from_dict` on a projected message dict: `None` values are
skipped, string values are encoded (no key is ever `"name"`), the
`tool_calls` list is neither a string nor a dict and contributes 0. -/
def tokens_from_dict (encodeLen : String → Nat) (m : ChatMessage) : Nat :=
  encodeLen (roleStr m.role) +
    (match m.content with | some s => encodeLen s | none => 0) +
    (match m.tool_call_id with | some s => encodeLen s | none => 0)

/-- `num_tokens_from_messages` for a supported model
(`tokens_per_message = 3`, plus 3 for the reply priming). -/
def num_tokens_from_messages (encodeLen : String → Nat)
    (messages : List ChatMessage) : Nat :=
  (messages.map (fun m => 3 + tokens_from_dict encodeLen m)).sum + 3

/-! ## Context-window truncation
(`format_openai_chat_messages_from_transcript`)

`num_tokens_from_functions(functions, model)` does not depend on the
message list and is constant across the truncation loop; it enters the
model as the abstract count `functionTokens`.  `LLM_AGENT_DEFAULT_MAX_TOKENS`
lives in `vocode/streaming/models/agent.py`, which is not among the
sources; modelled from the spec ("reserved") as the parameter `reserved`. -/

/-- A message the truncation scan may remove: neither the system prompt,
nor a tool response, nor an assistant message carrying `tool_calls`. -/
def isSafeToRemove (m : ChatMessage) : Bool :=
  !(m.role == .system) && !(m.role == .tool) &&
    !(m.role == .assistant && !m.tool_calls.isEmpty)

/-- The `for i in range(1, len(chat_messages))` scan: remove the first
safe message of the tail, or fail. -/
def popFirstSafe : List ChatMessage → Option (List ChatMessage)
  | [] => none
  | m :: rest =>
    if isSafeToRemove m then some rest
    else (popFirstSafe rest).map (m :: ·)

/-- One iteration of the truncation loop body on a list of length ≥ 2:
remove the first safe message at index ≥ 1, falling back to
`chat_messages.pop(1)` (the escape hatch) when none exists.  The boolean
records whether the escape hatch was taken. -/
def trimStep (msgs : List ChatMessage) : List ChatMessage × Bool :=
  match msgs with
  | [] => ([], true)
  | first :: rest =>
    match popFirstSafe rest with
    | some rest' => (first :: rest', false)
    | none => (first :: rest.drop 1, true)

/-- The `while context_size > ... :` truncation loop, structurally
recursive on a fuel.  Each iteration removes exactly one message from a
list of length ≥ 2, so a fuel of `msgs.length` runs the loop to
completion (`trimLoop_recurrence` below certifies the while-loop
semantics).  Returns the final message list together with a flag
recording whether any iteration took the escape hatch. -/
def trimLoopF (encodeLen : String → Nat) (functionTokens : Nat)
    (threshold : Int) : Nat → List ChatMessage → Bool →
    List ChatMessage × Bool
  | 0, msgs, escaped => (msgs, escaped)
  | fuel + 1, msgs, escaped =>
    if (num_tokens_from_messages encodeLen msgs + functionTokens : Int) > threshold then
      if msgs.length ≤ 1 then (msgs, escaped)
      else
        trimLoopF encodeLen functionTokens threshold fuel (trimStep msgs).1
          (escaped || (trimStep msgs).2)
    else (msgs, escaped)

def trimLoop (encodeLen : String → Nat) (functionTokens : Nat)
    (threshold : Int) (msgs : List ChatMessage) (escaped : Bool) :
    List ChatMessage × Bool :=
  trimLoopF encodeLen functionTokens threshold msgs.length msgs escaped

/-- `format_openai_chat_messages_from_transcript`, additionally exposing
the escape-hatch flag.  `none` models the `NotImplementedError` raised by
`num_tokens_from_messages` for a model without tokenizer info. -/
def formatWithEscapeFlag (encodeLen : String → Nat) (functionTokens : Nat)
    (reserved : Int) (event_logs : List EventLog) (model_name : String)
    (prompt_preamble : String) : Option (List ChatMessage × Bool) :=
  if supportedModels.contains model_name then
    let merged := merge_event_logs event_logs
    let msgs := get_openai_chat_messages_from_transcript merged prompt_preamble
    some (trimLoop encodeLen functionTokens
      (get_chat_gpt_max_tokens model_name - reserved - 50) msgs false)
  else none

/-- `format_openai_chat_messages_from_transcript` (returned value). -/
def format_openai_chat_messages_from_transcript (encodeLen : String → Nat)
    (functionTokens : Nat) (reserved : Int) (event_logs : List EventLog)
    (model_name : String) (prompt_preamble : String) :
    Option (List ChatMessage) :=
  (formatWithEscapeFlag encodeLen functionTokens reserved event_logs
    model_name prompt_preamble).map Prod.fst

/-! ## Pairing and uniqueness predicates (claims C2/C3) -/

/-- Does `m`, when it is a tool message, match its predecessor `prev`? -/
def toolPairedWith (prev m : ChatMessage) : Bool :=
  if m.role == .tool then
    prev.role == .assistant &&
      (match m.tool_call_id with
       | some id => prev.tool_calls.any (fun tc => tc.id == id)
       | none => false)
  else true

/-- Every tool message of the list is immediately preceded (within
`prev :: l`) by an assistant message whose `tool_calls` contains its id. -/
def pairedAfter : ChatMessage → List ChatMessage → Bool
  | _, [] => true
  | prev, m :: rest => toolPairedWith prev m && pairedAfter m rest

/-- Pair preservation for a whole message list (a tool message cannot be
first, and each one is paired with its immediate predecessor). -/
def pairOk : List ChatMessage → Bool
  | [] => true
  | m :: rest => !(m.role == .tool) && pairedAfter m rest

/-- Number of tool messages carrying `tool_call_id = id`. -/
def toolMsgCount (id : String) (msgs : List ChatMessage) : Nat :=
  (msgs.filter (fun m => m.role == .tool && m.tool_call_id == some id)).length

/-- Number of `tool_calls` entries carrying `id` across all messages. -/
def toolCallEntryCount (id : String) (msgs : List ChatMessage) : Nat :=
  (msgs.map (fun m => (m.tool_calls.filter (fun tc => tc.id == id)).length)).sum

/-! ## Streaming token demultiplexer (`openai_get_tokens`)

The OpenAI SDK's `ChatCompletionChunk` deltas are modelled structurally;
the consumed async generator becomes a list of chunks, and the produced
async generator the list of yielded values. -/

structure ToolCallFunctionChunk where
  name : Option String
  arguments : Option String
  deriving Repr, DecidableEq

structure ToolCallChunk where
  index : Nat
  id : Option String
  function : Option ToolCallFunctionChunk
  deriving Repr, DecidableEq

/-- Legacy `delta.function_call` (name, arguments). -/
structure FunctionCallDelta where
  name : Option String
  arguments : Option String
  deriving Repr, DecidableEq

structure ChunkDelta where
  content : Option String
  tool_calls : Option (List ToolCallChunk)
  function_call : Option FunctionCallDelta
  deriving Repr, DecidableEq

structure ChunkChoice where
  finish_reason : Option String
  delta : ChunkDelta
  deriving Repr, DecidableEq

structure ChatCompletionChunk where
  choices : List ChunkChoice
  deriving Repr, DecidableEq

/-- The per-index accumulator `{"id": "", "name": "", "arguments": "",
"name_sent": False}`. -/
structure ToolCallState where
  id : String
  name : String
  arguments : String
  name_sent : Bool
  deriving Repr, DecidableEq

def ToolCallState.fresh : ToolCallState := ⟨"", "", "", false⟩

/-- A value yielded by `openai_get_tokens`: either a content token or a
`FunctionFragment` (whose `tool_call_id` defaults to `None` on the
legacy `function_call` path). -/
inductive StreamOut where
  | token (s : String)
  | fragment (name arguments : String) (tool_call_id : Option String)
  deriving Repr, DecidableEq

/-- The body of `for tool_call_chunk in delta.tool_calls`: update the
per-index accumulator and yield a `FunctionFragment` only when the chunk
carries truthy incremental arguments at index 0. -/
def processToolCallChunk (st : List (Nat × ToolCallState)) (tc : ToolCallChunk) :
    List (Nat × ToolCallState) × List StreamOut :=
  let index := tc.index
  let cur := (alGet st index).getD ToolCallState.fresh
  let cur :=
    match tc.id with
    | some i => if i.isEmpty then cur else { cur with id := i }
    | none => cur
  match tc.function with
  | none => (alSet st index cur, [])
  | some f =>
    let cur :=
      match f.name with
      | some n => if n.isEmpty then cur else { cur with name := cur.name ++ n }
      | none => cur
    match f.arguments with
    | some args =>
      if args.isEmpty then (alSet st index cur, [])
      else
        let cur := { cur with arguments := cur.arguments ++ args }
        if index == 0 then
          let send := !cur.name_sent && !cur.name.isEmpty
          let name_to_send := if send then cur.name else ""
          let cur := if send then { cur with name_sent := true } else cur
          (alSet st index cur, [.fragment name_to_send args (some cur.id)])
        else (alSet st index cur, [])
    | none => (alSet st index cur, [])

/-- One iteration of `async for event in gen`.  The boolean is true when
the loop `break`s (a truthy `finish_reason`; `content_filter` only adds
a log line). -/
def processChunk (st : List (Nat × ToolCallState)) (event : ChatCompletionChunk) :
    (List (Nat × ToolCallState) × List StreamOut) × Bool :=
  match event.choices with
  | [] => ((st, []), false)
  | choice :: _ =>
    if optStrTruthy choice.finish_reason then ((st, []), true)
    else
      match choice.delta.content with
      | some token => ((st, [.token token]), false)
      | none =>
        match choice.delta.tool_calls with
        | some tcs =>
          let res := tcs.foldl
            (fun (acc : List (Nat × ToolCallState) × List StreamOut) tc =>
              let r := processToolCallChunk acc.1 tc
              (r.1, acc.2 ++ r.2))
            (st, [])
          (res, false)
        | none =>
          match choice.delta.function_call with
          | some fc =>
            ((st, [.fragment (fc.name.getD "") (fc.arguments.getD "") none]), false)
          | none => ((st, []), false)

/-- The demultiplexer loop with explicit accumulator state. -/
def openaiGetTokensGo : List ChatCompletionChunk → List (Nat × ToolCallState) →
    List StreamOut
  | [], _ => []
  | ev :: rest, st =>
    let r := processChunk st ev
    if r.2 then r.1.2 else r.1.2 ++ openaiGetTokensGo rest r.1.1

/-- `openai_get_tokens`. -/
def openai_get_tokens (gen : List ChatCompletionChunk) : List StreamOut :=
  openaiGetTokensGo gen []

/-- The accumulator stored at index `i` (a missing index reads as the
fresh accumulator, exactly as the code initializes it). -/
def stateAt (st : List (Nat × ToolCallState)) (i : Nat) : ToolCallState :=
  (alGet st i).getD ToolCallState.fresh

/-- Whether the index-0 accumulator has already sent its name. -/
def sentAt0 (st : List (Nat × ToolCallState)) : Bool :=
  (stateAt st 0).name_sent

/-- How many yielded values are tool-call fragments (they carry a
`tool_call_id`) with a non-empty name (claim C5). -/
def namedToolFragmentCount (outs : List StreamOut) : Nat :=
  (outs.filter (fun o =>
    match o with
    | .fragment n _ (some _) => !n.isEmpty
    | _ => false)).length

/-! ## External action execution
(`vocode/streaming/action/execute_external_action.py`)

Payload values (Python `Any`, JSON-decoded) are modelled as strings;
none of the verified properties depends on the value type.
`json.loads(self.action_config.input_schema).get("x-parameter-locations", {})`
is a stdlib JSON decode of a configured constant; the configuration
enters the model already decoded, as the `parameter_locations` table. -/

structure ExecuteExternalActionVocodeActionConfig where
  name : String
  description : String
  url : String
  parameter_locations : List (String × String)
  speak_on_send : Bool
  speak_on_receive : Bool
  signature_secret : String
  async_execution : Bool
  headers : List (String × String)
  wrap_arguments : Bool
  deriving Repr, DecidableEq

/-- `ExecuteExternalAction._process_parameters_by_location`: route every
payload key into path, query or body according to its declared location,
defaulting to body. -/
def process_parameters_by_location (parameter_locations : List (String × String))
    (payload : List (String × String)) :
    List (String × String) × List (String × String) × List (String × String) :=
  payload.foldl
    (fun (acc : List (String × String) × List (String × String) × List (String × String)) p =>
      let location := (alGet parameter_locations p.1).getD "body"
      if location == "path" then (acc.1 ++ [p], acc.2.1, acc.2.2)
      else if location == "query" then (acc.1, acc.2.1 ++ [p], acc.2.2)
      else (acc.1, acc.2.1, acc.2.2 ++ [p]))
    ([], [], [])

/-- The scanning predicate shared by the template functions: "not the
closing brace". -/
def isNotRBrace (c : Char) : Bool := !(c == '\x7d')

/-- The exceptions `str.format` can raise: `KeyError` for an unbound
placeholder name (reported with the name), and `ValueError` for a
malformed template (an unmatched brace). -/
inductive FormatError where
  | keyError (name : String)
  | valueError
  deriving Repr, DecidableEq

/-- `str.format`-style substitution as used on URL templates: each
`\x7bname\x7d` is replaced by the bound value.  The format-spec
minilanguage (`\x7b\x7b` escapes, `:spec` suffixes) does not occur in
URL templates and is outside the modelled grammar. -/
def formatScanF (args : List (String × String)) :
    Nat → List Char → Except FormatError (List Char)
  | _, [] => .ok []
  | 0, l => .ok l
  | fuel + 1, c :: rest =>
    if c = '\x7b' then
      match rest.dropWhile isNotRBrace with
      | [] => .error .valueError
      | _ :: rest2 =>
        match alGet args ((rest.takeWhile isNotRBrace).asString) with
        | some v => (formatScanF args fuel rest2).map (v.data ++ ·)
        | none => .error (.keyError ((rest.takeWhile isNotRBrace).asString))
    else if c = '\x7d' then .error .valueError
    else (formatScanF args fuel rest).map (fun t => c :: t)

/-- Each scanning step consumes at least one character, so a fuel of the
template length runs the scan to completion. -/
def formatScan (args : List (String × String)) (cs : List Char) :
    Except FormatError (List Char) :=
  formatScanF args cs.length cs

/-- The `\x7bname\x7d` placeholder names of a template, in order. -/
def placeholderNamesF : Nat → List Char → List String
  | _, [] => []
  | 0, _ => []
  | fuel + 1, c :: rest =>
    if c = '\x7b' then
      match rest.dropWhile isNotRBrace with
      | [] => []
      | _ :: rest2 =>
        (rest.takeWhile isNotRBrace).asString :: placeholderNamesF fuel rest2
    else placeholderNamesF fuel rest

def placeholderNames (cs : List Char) : List String :=
  placeholderNamesF cs.length cs

/-- Characters free of both braces. -/
def noBraces (cs : List Char) : Bool :=
  cs.all (fun c => !(c == '\x7b') && !(c == '\x7d'))

/-- A template in which every `\x7b` opens a closed placeholder whose
name is brace-free, and no stray `\x7d` occurs. -/
def bracesWellFormedF : Nat → List Char → Bool
  | _, [] => true
  | 0, _ => false
  | fuel + 1, c :: rest =>
    if c = '\x7b' then
      match rest.dropWhile isNotRBrace with
      | [] => false
      | _ :: rest2 =>
        noBraces (rest.takeWhile isNotRBrace) && bracesWellFormedF fuel rest2
    else if c = '\x7d' then false
    else bracesWellFormedF fuel rest

def bracesWellFormed (cs : List Char) : Bool :=
  bracesWellFormedF cs.length cs

/-- Claim-side routing predicates (C4): where
`x-parameter-locations` sends a payload entry, defaulting to body. -/
def routesToPath (parameter_locations : List (String × String))
    (p : String × String) : Bool :=
  ((alGet parameter_locations p.1).getD "body") == "path"

def routesToQuery (parameter_locations : List (String × String))
    (p : String × String) : Bool :=
  ((alGet parameter_locations p.1).getD "body") == "query"

def routesToBody (parameter_locations : List (String × String))
    (p : String × String) : Bool :=
  !(routesToPath parameter_locations p) && !(routesToQuery parameter_locations p)

/-- Hex digit for percent-encoding. -/
def hexDigit (n : Nat) : Char :=
  if n < 10 then Char.ofNat (48 + n) else Char.ofNat (55 + n)

/-- Modelled from the spec: `urllib.parse.urlencode` (stdlib) —
percent-encode each key and value (`quote_plus`: space becomes `+`),
join as `k=v` pairs with `&`. -/
def quotePlus (s : String) : String :=
  String.join (s.data.map fun c =>
    if c.isAlphanum || c == '_' || c == '.' || c == '-' || c == '~' then
      String.singleton c
    else if c == ' ' then "+"
    else
      "%" ++ String.singleton (hexDigit (c.toNat / 16 % 16)) ++
        String.singleton (hexDigit (c.toNat % 16)))

def urlencode (qs : List (String × String)) : String :=
  "&".intercalate (qs.map fun p => quotePlus p.1 ++ "=" ++ quotePlus p.2)

/-- `ExecuteExternalAction._build_request_url`: substitute path
placeholders only when `path_params` is non-empty (a `KeyError` from the
substitution is re-raised as `ValueError "Missing required path
parameter"`), then append the encoded query string, choosing `?` or `&`
by whether the (substituted) URL already contains `?`. -/
def build_request_url (url : String)
    (path_params query_params : List (String × String)) :
    Except String String :=
  let step1 : Except String String :=
    if path_params.isEmpty then .ok url
    else
      match formatScan path_params url.data with
      | .ok cs => .ok cs.asString
      | .error (.keyError name) =>
        .error ("Missing required path parameter: " ++ name)
      | .error .valueError => .error "single brace"
  match step1 with
  | .error e => .error e
  | .ok u =>
    if query_params.isEmpty then .ok u
    else
      let query_string := urlencode query_params
      let separator := if u.data.contains '?' then "&" else "?"
      .ok (u ++ separator ++ query_string)

/-- Modelled from the spec: the response shape of
`ExternalActionsRequester.send_request`
(`external_actions_requester.py` is not among the sources):
`\x7bsuccess, result, agent_message?\x7d`. -/
structure ExternalActionResponse where
  success : Bool
  result : Option (List (String × String))
  agent_message : Option String
  deriving Repr, DecidableEq

/-- The arguments handed to `external_actions_requester.send_request`. -/
structure ExternalRequest where
  url : String
  payload : List (String × String)
  signature_secret : String
  headers : List (String × String)
  wrap_arguments : Bool
  deriving Repr, DecidableEq

/-- How the request was issued: `asyncio.create_task` (fire-and-forget,
not awaited before returning) versus `await`. -/
inductive RequestEffect where
  | spawned (r : ExternalRequest)
  | awaited (r : ExternalRequest)
  deriving Repr, DecidableEq

/-- `ExecuteExternalAction.send_external_action_request`: route the
payload, build the URL (errors propagate), then either spawn the request
and return the canned success response at once, or await the remote and
return its response.  `remote` models the external endpoint. -/
def send_external_action_request
    (cfg : ExecuteExternalActionVocodeActionConfig)
    (payload : List (String × String))
    (remote : ExternalRequest → ExternalActionResponse) :
    Except String (ExternalActionResponse × List RequestEffect) :=
  let parts := process_parameters_by_location cfg.parameter_locations payload
  match build_request_url cfg.url parts.1 parts.2.1 with
  | .error e => .error e
  | .ok request_url =>
    let req : ExternalRequest :=
      ⟨request_url, parts.2.2, cfg.signature_secret, cfg.headers, cfg.wrap_arguments⟩
    if cfg.async_execution then
      .ok (⟨true, some [("info", "success")], none⟩, [.spawned req])
    else
      .ok (remote req, [.awaited req])

/-! ## Parameter formatters
(`vocode/streaming/action/parameter_formatters.py`)

`datetime.fromisoformat` and `pytz` are external libraries, modelled
as follows: a parsed datetime is a record of calendar fields plus an
optional UTC offset in seconds (`None` = naive); `pytz` timezones are a
table from zone names to the offset (in seconds) that `tz.localize`
attaches to a given naive wall time (this covers DST, since the offset
may depend on the datetime); `pytz.UTC` is offset `0`.  `timestamp()`
is the civil-calendar epoch computation. -/

structure PyDateTime where
  year : Int
  month : Nat
  day : Nat
  hour : Nat
  minute : Nat
  second : Nat
  offset : Option Int
  deriving Repr, DecidableEq

/-- A timezone database: zone name ↦ offset attached by `localize`. -/
def TzDb : Type := List (String × (PyDateTime → Int))

/-- A JSON-ish Python value, as handled by `apply_parameter_format`. -/
inductive PyValue where
  | str (s : String)
  | int (n : Int)
  | bool (b : Bool)
  deriving Repr, DecidableEq

def digitVal (c : Char) : Option Nat :=
  if c.isDigit then some (c.toNat - 48) else none

def parse2 (a b : Char) : Option Nat := do
  pure ((← digitVal a) * 10 + (← digitVal b))

def parse4 (a b c d : Char) : Option Nat := do
  pure (((← digitVal a) * 10 + (← digitVal b)) * 100 +
    ((← digitVal c) * 10 + (← digitVal d)))

def isLeapYear (y : Int) : Bool :=
  (y % 4 == 0 && y % 100 != 0) || y % 400 == 0

def daysInMonth (y : Int) (m : Nat) : Nat :=
  if m == 2 then (if isLeapYear y then 29 else 28)
  else if m == 4 || m == 6 || m == 9 || m == 11 then 30
  else 31

/-- The time-and-offset tail of an ISO string: `HH:MM[:SS]` followed by
nothing or `±HH:MM`. -/
def parseTimeTail : List Char → Option (Nat × Nat × Nat × Option Int)
  | [h1, h2, ':', m1, m2] => do
    let h ← parse2 h1 h2; let mi ← parse2 m1 m2
    if h ≤ 23 ∧ mi ≤ 59 then pure (h, mi, 0, none) else none
  | [h1, h2, ':', m1, m2, ':', s1, s2] => do
    let h ← parse2 h1 h2; let mi ← parse2 m1 m2; let s ← parse2 s1 s2
    if h ≤ 23 ∧ mi ≤ 59 ∧ s ≤ 59 then pure (h, mi, s, none) else none
  | (h1 :: h2 :: ':' :: m1 :: m2 :: ':' :: s1 :: s2 :: sign :: oh1 :: oh2 :: ':' :: om1 :: om2 :: []) => do
    let h ← parse2 h1 h2; let mi ← parse2 m1 m2; let s ← parse2 s1 s2
    let oh ← parse2 oh1 oh2; let om ← parse2 om1 om2
    if h ≤ 23 ∧ mi ≤ 59 ∧ s ≤ 59 ∧ oh ≤ 23 ∧ om ≤ 59 then
      let off : Int := oh * 3600 + om * 60
      if sign = '+' then pure (h, mi, s, some off)
      else if sign = '-' then pure (h, mi, s, some (-off))
      else none
    else none
  | (h1 :: h2 :: ':' :: m1 :: m2 :: sign :: oh1 :: oh2 :: ':' :: om1 :: om2 :: []) => do
    let h ← parse2 h1 h2; let mi ← parse2 m1 m2
    let oh ← parse2 oh1 oh2; let om ← parse2 om1 om2
    if h ≤ 23 ∧ mi ≤ 59 ∧ oh ≤ 23 ∧ om ≤ 59 then
      let off : Int := oh * 3600 + om * 60
      if sign = '+' then pure (h, mi, 0, some off)
      else if sign = '-' then pure (h, mi, 0, some (-off))
      else none
    else none
  | _ => none

/-- `datetime.fromisoformat`: `YYYY-MM-DD`, optionally followed by a
one-character separator and `HH:MM[:SS][±HH:MM]` (fractional seconds do
not occur in the modelled inputs). -/
def fromisoformat (s : String) : Option PyDateTime :=
  match s.data with
  | (y1 :: y2 :: y3 :: y4 :: '-' :: m1 :: m2 :: '-' :: d1 :: d2 :: rest) => do
    let y ← parse4 y1 y2 y3 y4
    let m ← parse2 m1 m2
    let d ← parse2 d1 d2
    if 1 ≤ y ∧ 1 ≤ m ∧ m ≤ 12 ∧ 1 ≤ d ∧ d ≤ daysInMonth y m then
      match rest with
      | [] => pure ⟨y, m, d, 0, 0, 0, none⟩
      | _ :: timetail => do
        let t ← parseTimeTail timetail
        pure ⟨y, m, d, t.1, t.2.1, t.2.2.1, t.2.2.2⟩
    else none
  | _ => none

/-- Days from 1970-01-01 for a civil date (Hinnant's algorithm; Lean's
`Int` division truncates toward zero exactly like the reference C). -/
def daysFromCivil (y : Int) (m d : Nat) : Int :=
  let yy := if m ≤ 2 then y - 1 else y
  let era := (if 0 ≤ yy then yy else yy - 399) / 400
  let yoe := yy - era * 400
  let mp : Nat := (m + 9) % 12
  let doy : Nat := (153 * mp + 2) / 5 + d - 1
  let doe : Int := yoe * 365 + yoe / 4 - yoe / 100 + doy
  era * 146097 + doe - 719468

/-- `dt.timestamp()` for an aware datetime (naive datetimes are always
localized before this is taken; a missing offset counts as UTC). -/
def PyDateTime.timestamp (dt : PyDateTime) : Int :=
  daysFromCivil dt.year dt.month dt.day * 86400 +
    dt.hour * 3600 + dt.minute * 60 + dt.second - dt.offset.getD 0

/-- `convert_datetime_to_epoch`: normalize `Z`, parse, localize naive
datetimes to the provided timezone (unknown zones fall back to UTC) or
UTC, then emit integer epoch seconds or milliseconds; unknown format
types and parse failures return the original string. -/
def convert_datetime_to_epoch (tzdb : TzDb) (datetime_str : String)
    (format_type : String) (timezone_str : Option String) : PyValue :=
  let normalized := pyReplace datetime_str "Z" "+00:00"
  match fromisoformat normalized with
  | none => .str datetime_str
  | some dt =>
    let dt :=
      match dt.offset with
      | some _ => dt
      | none =>
        match timezone_str with
        | some tzs =>
          if tzs.isEmpty then { dt with offset := some 0 }
          else
            match alGet tzdb tzs with
            | some f => { dt with offset := some (f dt) }
            | none => { dt with offset := some 0 }
        | none => { dt with offset := some 0 }
    let epoch_seconds := dt.timestamp
    if format_type == "epoch_s" then .int epoch_seconds
    else if format_type == "epoch_ms" then .int (epoch_seconds * 1000)
    else .str datetime_str

/-- `apply_parameter_format`. -/
def apply_parameter_format (tzdb : TzDb) (param_value : PyValue)
    (format_type : String) (extra_context : Option (List (String × String))) :
    PyValue :=
  if format_type == "epoch_s" || format_type == "epoch_ms" then
    match param_value with
    | .str s =>
      let timezone_str :=
        match extra_context with
        | some ctx => alGet ctx "timezone"
        | none => none
      convert_datetime_to_epoch tzdb s format_type timezone_str
    | v => v
  else param_value

/-- `apply_parameter_formats`: rewrite exactly the keys listed in
`param_formats`. -/
def apply_parameter_formats (tzdb : TzDb) (payload : List (String × PyValue))
    (param_formats : List (String × String))
    (extra_context : Option (List (String × String))) : List (String × PyValue) :=
  if param_formats.isEmpty then payload
  else
    payload.foldl
      (fun acc p =>
        match alGet param_formats p.1 with
        | some format_type =>
          alSet acc p.1 (apply_parameter_format tzdb p.2 format_type extra_context)
        | none => acc)
      payload

/-! ## Rate-limited output device
(`vocode/streaming/output_device/rate_limit_interruptions_output_device.py`)

A single `_run_loop` iteration is modelled as the trace of its effects.
Wall-clock time is nondeterministic: `elapsed` stands for
`end_time - start_time` (the wall time between reading the clock before
the blocking dequeue and after `play` returns).  `bytes_per_second`
stands for `get_chunk_size_per_second(audio_encoding, sampling_rate)`
(`vocode/streaming/utils/__init__.py`, not among the sources; modelled
from the spec as a positive parameter).  Arithmetic is over `ℚ` in place
of Python floats. -/

inductive OutputAction where
  | markedInterrupted
  | played
  | slept (d : ℚ)
  | markedNonInterruptible
  deriving Repr, DecidableEq

/-- `len(audio_chunk.data) / get_chunk_size_per_second(...)`. -/
def speechLengthSeconds (chunkLen : Nat) (bytes_per_second : ℚ) : ℚ :=
  chunkLen / bytes_per_second

/-- One iteration of `RateLimitInterruptionsOutputDevice._run_loop`
after an item has been dequeued. -/
def runLoopIteration (chunkLen : Nat) (bytes_per_second : ℚ)
    (elapsed per_chunk_allowance_seconds : ℚ) (interrupted : Bool) :
    List OutputAction :=
  if interrupted then [.markedInterrupted]
  else
    let speech_length_seconds := speechLengthSeconds chunkLen bytes_per_second
    [.played,
     .slept (max (speech_length_seconds - elapsed - per_chunk_allowance_seconds) 0),
     .markedNonInterruptible]

/-! # Theorems -/

/-! ## Shared lemmas -/

theorem pairedAfter_of_pairOk {l : List ChatMessage} (h : pairOk l = true)
    (prev : ChatMessage) : pairedAfter prev l = true := by
  cases l with
  | nil => rfl
  | cons m rest =>
    simp only [pairOk, Bool.and_eq_true] at h
    simp only [pairedAfter, Bool.and_eq_true]
    refine ⟨?_, h.2⟩
    simp only [toolPairedWith]
    rw [if_neg]
    simp only [Bool.not_eq_true'] at h
    simp [h.1]

/-! ## C10: `get_audio` on an empty stored value -/

/-- C10: `get_audio` treats a stored empty byte string as a cache miss:
when the value at the key exists but is empty (or the key is absent) it
returns `None` and leaves the state — in particular `last_access` and
`popularity` — untouched; metadata is updated exactly when a non-empty
value is found and returned. -/
theorem C10_get_audio_empty_is_miss (st : RedisState) (now : Int)
    (language voice_identifier text : String) :
    (st.get (get_audio_key language voice_identifier text) = some [] →
      get_audio false st now language voice_identifier text = (none, st)) ∧
    (st.get (get_audio_key language voice_identifier text) = none →
      get_audio false st now language voice_identifier text = (none, st)) ∧
    (∀ b : List Nat, b ≠ [] →
      st.get (get_audio_key language voice_identifier text) = some b →
      get_audio false st now language voice_identifier text =
        (some b,
          update_access_time st now (get_audio_key language voice_identifier text))) := by
  refine ⟨fun h => ?_, fun h => ?_, fun b hb h => ?_⟩
  · simp [get_audio, h]
  · simp [get_audio, h]
  · simp [get_audio, h, hb]

/-- Witness for C10 at a concrete cached state: a stored empty value is
a miss with no state change; a stored non-empty value is a hit with a
metadata update. -/
theorem C10_get_audio_empty_is_miss_witness :
    get_audio false (RedisState.empty.set "audio_cache:en:v:t" []) 5 "en" "v" "t" =
      (none, RedisState.empty.set "audio_cache:en:v:t" []) ∧
    get_audio false (RedisState.empty.set "audio_cache:en:v:t" [7]) 5 "en" "v" "t" =
      (some [7],
        update_access_time (RedisState.empty.set "audio_cache:en:v:t" [7]) 5
          "audio_cache:en:v:t") :=
  ⟨(C10_get_audio_empty_is_miss (RedisState.empty.set "audio_cache:en:v:t" []) 5
      "en" "v" "t").1 (by decide),
   (C10_get_audio_empty_is_miss (RedisState.empty.set "audio_cache:en:v:t" [7]) 5
      "en" "v" "t").2.2 [7] (by decide) (by decide)⟩

/-! ## C1: no LRU eviction happens -/

/-- The accounting of two `set_audio` calls with distinct texts on a
fresh store: the language size counter accumulates both byte lengths
and both values stay stored. -/
theorem set_audio_twice_fresh (a b : List Nat) (n1 n2 : Int) :
    (set_audio false (set_audio false RedisState.empty n1 "en" "v" "textone" a none)
        n2 "en" "v" "texttwo" b none).getCounter (get_size_key "en") =
      0 + (a.length : Int) + (b.length : Int) ∧
    (set_audio false (set_audio false RedisState.empty n1 "en" "v" "textone" a none)
        n2 "en" "v" "texttwo" b none).data =
      [("audio_cache:en:v:textone", a), ("audio_cache:en:v:texttwo", b)] :=
  ⟨rfl, rfl⟩

/-- C1 (code bug): `ensure_cache_size` reads the size counter and
returns the state unchanged — it never evicts anything, contradicting
its own docstring ("Make room in the cache if needed using LRU
eviction") — and consequently two `set_audio` writes of 300 MiB each on
the fresh language `"en"` (budget 512 MiB) leave 600 MiB accounted and
stored, violating the claimed budget bound. -/
theorem C1_ensure_cache_size_never_evicts :
    (∀ (st : RedisState) (language : String) (new_item_size : Int),
      ensure_cache_size st language new_item_size = st) ∧
    (set_audio false
        (set_audio false RedisState.empty 1 "en" "v" "textone"
          (List.replicate (300 * 1024 * 1024) 0) none)
        2 "en" "v" "texttwo" (List.replicate (300 * 1024 * 1024) 0) none).getCounter
      (get_size_key "en") = 600 * 1024 * 1024 ∧
    ((set_audio false
        (set_audio false RedisState.empty 1 "en" "v" "textone"
          (List.replicate (300 * 1024 * 1024) 0) none)
        2 "en" "v" "texttwo" (List.replicate (300 * 1024 * 1024) 0) none).data.map
      (fun p => p.2.length)).sum = 600 * 1024 * 1024 ∧
    get_max_cache_size "en" = 512 * 1024 * 1024 ∧
    (512 * 1024 * 1024 : Int) < 600 * 1024 * 1024 := by
  refine ⟨fun st language n => rfl, ?_, ?_, by decide, by decide⟩
  · rw [(set_audio_twice_fresh (List.replicate (300 * 1024 * 1024) 0)
      (List.replicate (300 * 1024 * 1024) 0) 1 2).1]
    rw [List.length_replicate]
    norm_num
  · rw [(set_audio_twice_fresh (List.replicate (300 * 1024 * 1024) 0)
      (List.replicate (300 * 1024 * 1024) 0) 1 2).2]
    simp only [List.map_cons, List.map_nil, List.sum_cons, List.sum_nil,
      List.length_replicate]
    norm_num

/-! ## C8: rate-limit sleep bound -/

/-- C8: for a non-interrupted chunk the loop plays, then sleeps exactly
`max(play_seconds − wall_elapsed − per_chunk_allowance, 0)`, then marks
the event non-interruptible (strictly after the sleep); the sleep never
exceeds the chunk's real duration `play_seconds`. -/
theorem C8_rate_limit_sleep (chunkLen : Nat)
    (bytes_per_second elapsed allowance : ℚ)
    (hb : 0 < bytes_per_second) (he : 0 ≤ elapsed) (ha : 0 ≤ allowance) :
    runLoopIteration chunkLen bytes_per_second elapsed allowance false =
      [.played,
       .slept (max (speechLengthSeconds chunkLen bytes_per_second - elapsed - allowance) 0),
       .markedNonInterruptible] ∧
    max (speechLengthSeconds chunkLen bytes_per_second - elapsed - allowance) 0 ≤
      speechLengthSeconds chunkLen bytes_per_second := by
  constructor
  · rfl
  · have h0 : 0 ≤ speechLengthSeconds chunkLen bytes_per_second :=
      div_nonneg (by positivity) hb.le
    have h1 : speechLengthSeconds chunkLen bytes_per_second - elapsed - allowance ≤
        speechLengthSeconds chunkLen bytes_per_second := by linarith
    exact max_le h1 h0

/-- Witness for C8 at a concrete chunk (16000 bytes at 8000 bytes/s,
0.35 s elapsed, 0.01 s allowance). -/
theorem C8_rate_limit_sleep_witness :
    runLoopIteration 16000 8000 (35/100) (1/100) false =
      [.played,
       .slept (max (speechLengthSeconds 16000 8000 - 35/100 - 1/100) 0),
       .markedNonInterruptible] ∧
    max (speechLengthSeconds 16000 8000 - 35/100 - 1/100) 0 ≤
      speechLengthSeconds 16000 8000 :=
  C8_rate_limit_sleep 16000 8000 (35/100) (1/100) (by norm_num) (by norm_num)
    (by norm_num)

/-! ## C6: async versus awaited external requests -/

/-- C6 (amended: provided building the request URL succeeds): with
`async_execution` true, `send_external_action_request` immediately
returns `\x7bsuccess: true, result: \x7binfo: "success"\x7d\x7d` and the
only effect is a spawned (fire-and-forget, never awaited) request; with
the flag false it awaits the request and returns the requester's
response. -/
theorem C6_async_execution (cfg : ExecuteExternalActionVocodeActionConfig)
    (payload : List (String × String))
    (remote : ExternalRequest → ExternalActionResponse) (u : String)
    (hurl : build_request_url cfg.url
      (process_parameters_by_location cfg.parameter_locations payload).1
      (process_parameters_by_location cfg.parameter_locations payload).2.1 = .ok u) :
    (cfg.async_execution = true →
      send_external_action_request cfg payload remote =
        .ok (⟨true, some [("info", "success")], none⟩,
          [.spawned ⟨u,
            (process_parameters_by_location cfg.parameter_locations payload).2.2,
            cfg.signature_secret, cfg.headers, cfg.wrap_arguments⟩])) ∧
    (cfg.async_execution = false →
      send_external_action_request cfg payload remote =
        .ok (remote ⟨u,
            (process_parameters_by_location cfg.parameter_locations payload).2.2,
            cfg.signature_secret, cfg.headers, cfg.wrap_arguments⟩,
          [.awaited ⟨u,
            (process_parameters_by_location cfg.parameter_locations payload).2.2,
            cfg.signature_secret, cfg.headers, cfg.wrap_arguments⟩])) := by
  constructor
  · intro hasync
    simp [send_external_action_request, hurl, hasync]
  · intro hasync
    simp [send_external_action_request, hurl, hasync]

/-- Witness for C6 at a concrete configuration, once with
`async_execution = true` and once with it false. -/
theorem C6_async_execution_witness :
    send_external_action_request
      ⟨"a", "d", "https://x/\x7bid\x7d", [("id", "path")], false, false, "sec",
        true, [], true⟩
      [("id", "7")] (fun _ => ⟨false, none, none⟩) =
      .ok (⟨true, some [("info", "success")], none⟩,
        [.spawned ⟨"https://x/7", [], "sec", [], true⟩]) ∧
    send_external_action_request
      ⟨"a", "d", "https://x/\x7bid\x7d", [("id", "path")], false, false, "sec",
        false, [], true⟩
      [("id", "7")] (fun _ => ⟨false, none, none⟩) =
      .ok (⟨false, none, none⟩, [.awaited ⟨"https://x/7", [], "sec", [], true⟩]) :=
  ⟨(C6_async_execution
      ⟨"a", "d", "https://x/\x7bid\x7d", [("id", "path")], false, false, "sec",
        true, [], true⟩
      [("id", "7")] (fun _ => ⟨false, none, none⟩) "https://x/7" rfl).1 rfl,
   (C6_async_execution
      ⟨"a", "d", "https://x/\x7bid\x7d", [("id", "path")], false, false, "sec",
        false, [], true⟩
      [("id", "7")] (fun _ => ⟨false, none, none⟩) "https://x/7" rfl).2 rfl⟩

/-- C6 counterexample to the unrestricted claim ("for every action
input"): with `async_execution = true` but a payload whose path
parameters miss the `\x7bid\x7d` placeholder, the call raises
`ValueError` (modelled as `.error`) instead of returning the immediate
success response. -/
theorem C6_async_execution_counterexample :
    send_external_action_request
      ⟨"a", "d", "https://x/\x7bid\x7d", [("q", "path")], false, false, "sec",
        true, [], true⟩
      [("q", "1")] (fun _ => ⟨false, none, none⟩) =
      .error "Missing required path parameter: id" := rfl

/-! ## C9: merging consecutive bot messages -/

theorem mergedBotMessage_eq_spec (run : List EventLog) :
    mergedBotMessage run = mergeSpecMerged run := rfl

theorem drop_takeWhile_length {α : Type} (p : α → Bool) (l : List α) :
    l.drop (l.takeWhile p).length = l.dropWhile p := by
  have h0 := List.drop_left (l.takeWhile p) (l.dropWhile p)
  rw [List.takeWhile_append_dropWhile] at h0
  exact h0

theorem mergeGo_eq_mergeSpec (logs : List EventLog) :
    ∀ (fuel idx : Nat), logs.length - idx ≤ fuel →
      mergeGo logs idx fuel = mergeSpecFn (logs.drop idx) := by
  intro fuel
  induction fuel with
  | zero =>
    intro idx h
    have hle : logs.length ≤ idx := by omega
    rw [List.drop_eq_nil_of_le hle]
    simp [mergeGo, mergeSpecFn]
  | succ n ih =>
    intro idx h
    by_cases hlt : idx < logs.length
    · have hdrop : logs.drop idx = logs[idx] :: logs.drop (idx + 1) :=
        List.drop_eq_getElem_cons hlt
      simp only [mergeGo, dif_pos hlt]
      by_cases hb : ((logs.drop idx).takeWhile isBotMessage).isEmpty
      · have hbot : isBotMessage logs[idx] = false := by
          rw [hdrop, List.takeWhile_cons] at hb
          by_cases hx : isBotMessage logs[idx]
          · rw [if_pos hx] at hb; simp at hb
          · simpa using hx
        rw [if_pos hb]
        conv_rhs => rw [hdrop]
        rw [mergeSpecFn, if_neg (by simp [hbot])]
        rw [ih (idx + 1) (by omega), List.get_eq_getElem]
      · have hbot : isBotMessage logs[idx] = true := by
          rw [hdrop, List.takeWhile_cons] at hb
          by_cases hx : isBotMessage logs[idx]
          · exact hx
          · rw [if_neg hx] at hb; simp at hb
        rw [if_neg hb]
        have hlen1 : 1 ≤ ((logs.drop idx).takeWhile isBotMessage).length := by
          rcases hx : (logs.drop idx).takeWhile isBotMessage with _ | ⟨a, l⟩
          · rw [hx] at hb; simp at hb
          · simp
        have hdw : logs.drop (idx + ((logs.drop idx).takeWhile isBotMessage).length) =
            (logs.drop idx).dropWhile isBotMessage := by
          rw [← List.drop_drop ((logs.drop idx).takeWhile isBotMessage).length idx logs]
          exact drop_takeWhile_length _ _
        conv_rhs => rw [hdrop]
        rw [mergeSpecFn, if_pos (by simpa using hbot)]
        rw [← hdrop, mergedBotMessage_eq_spec]
        have hdw2 : (logs.drop (idx + 1)).dropWhile isBotMessage =
            (logs.drop idx).dropWhile isBotMessage := by
          conv_rhs => rw [hdrop]
          rw [List.dropWhile_cons, if_pos (by simpa using hbot)]
        rw [ih (idx + ((logs.drop idx).takeWhile isBotMessage).length) (by omega),
          hdw, hdw2]
    · have hle : logs.length ≤ idx := by omega
      rw [List.drop_eq_nil_of_le hle]
      simp only [mergeGo, dif_neg hlt]
      simp [mergeSpecFn]

/-- C9: `merge_event_logs` replaces each maximal run of consecutive BOT
messages by a single message whose text is the space-join of the run's
texts in order and whose other fields are those of the run's last
message (a deep copy — the model is pure); all other entries pass
through unchanged in their original relative order.  `mergeSpecFn` is
the claim-side restatement of exactly that description. -/
theorem C9_merge_event_logs_refines_spec (event_logs : List EventLog) :
    merge_event_logs event_logs = mergeSpecFn event_logs := by
  have := mergeGo_eq_mergeSpec event_logs event_logs.length 0 (by omega)
  simpa [merge_event_logs] using this

/-! ## C7: parameter format coercions -/

/-- C7: `apply_parameter_format("2025-09-06T10:00:00Z", "epoch_s")`
returns the integer 1757152800; an unknown format type returns the
value unchanged; and a naive ISO-8601 timestamp with an
`extra_context` timezone yields the same epoch as the equivalent
timezone-aware timestamp carrying that zone's offset, both as integer
seconds (`epoch_s`) and integer milliseconds (`epoch_ms`). -/
theorem C7_format_round_trip (tzdb : TzDb) :
    apply_parameter_format tzdb (.str "2025-09-06T10:00:00Z") "epoch_s" none =
      .int 1757152800 ∧
    (∀ (x : PyValue) (ctx : Option (List (String × String))),
      apply_parameter_format tzdb x "unknown" ctx = x) ∧
    (∀ (name : String) (f : PyDateTime → Int) (s saware : String) (d : PyDateTime),
      name.isEmpty = false →
      alGet tzdb name = some f →
      fromisoformat (pyReplace s "Z" "+00:00") = some d →
      d.offset = none →
      fromisoformat (pyReplace saware "Z" "+00:00") =
        some { d with offset := some (f d) } →
      (convert_datetime_to_epoch tzdb s "epoch_s" (some name) =
          .int ({ d with offset := some (f d) } : PyDateTime).timestamp ∧
        convert_datetime_to_epoch tzdb saware "epoch_s" none =
          .int ({ d with offset := some (f d) } : PyDateTime).timestamp ∧
        convert_datetime_to_epoch tzdb s "epoch_ms" (some name) =
          .int (({ d with offset := some (f d) } : PyDateTime).timestamp * 1000) ∧
        convert_datetime_to_epoch tzdb saware "epoch_ms" none =
          .int (({ d with offset := some (f d) } : PyDateTime).timestamp * 1000))) := by
  refine ⟨?_, ?_, ?_⟩
  · have hparse : fromisoformat (pyReplace "2025-09-06T10:00:00Z" "Z" "+00:00") =
        some ⟨2025, 9, 6, 10, 0, 0, some 0⟩ := rfl
    unfold apply_parameter_format convert_datetime_to_epoch
    norm_num [hparse]
    decide
  · intro x ctx
    cases x <;> rfl
  · intro name f s saware d hname hget hs hoff hsa
    refine ⟨?_, ?_, ?_, ?_⟩ <;>
      simp [convert_datetime_to_epoch, hs, hsa, hoff, hname, hget]

/-- Witness for C7: the concrete zone table maps
`America/Mexico_City` to UTC−5; the naive timestamp localized there and
the explicitly aware `-05:00` timestamp both convert to epoch
1757170800 s (and 1757170800000 ms). -/
theorem C7_format_round_trip_witness :
    convert_datetime_to_epoch [("America/Mexico_City", fun _ => -18000)]
      "2025-09-06T10:00:00" "epoch_s" (some "America/Mexico_City") =
        .int 1757170800 ∧
    convert_datetime_to_epoch [("America/Mexico_City", fun _ => -18000)]
      "2025-09-06T10:00:00-05:00" "epoch_s" none = .int 1757170800 ∧
    convert_datetime_to_epoch [("America/Mexico_City", fun _ => -18000)]
      "2025-09-06T10:00:00" "epoch_ms" (some "America/Mexico_City") =
        .int 1757170800000 := by
  have h := (C7_format_round_trip [("America/Mexico_City", fun _ => -18000)]).2.2
    "America/Mexico_City" (fun _ => -18000) "2025-09-06T10:00:00"
    "2025-09-06T10:00:00-05:00" ⟨2025, 9, 6, 10, 0, 0, none⟩
    rfl rfl rfl rfl rfl
  exact ⟨h.1, h.2.1, h.2.2.1⟩

/-! ## C4: parameter routing and URL building -/

theorem alGet_mem {α : Type} {l : List (String × α)} {k : String} {v : α}
    (h : alGet l k = some v) : ∃ k', (k', v) ∈ l := by
  unfold alGet at h
  cases hf : l.find? (fun p => p.1 == k) with
  | none => rw [hf] at h; simp at h
  | some p =>
    rw [hf] at h
    simp only [Option.some_inj] at h
    obtain ⟨p1, p2⟩ := p
    exact ⟨p1, by rw [← h]; exact List.mem_of_find?_eq_some hf⟩

theorem noBraces_append {a b : List Char} (ha : noBraces a = true)
    (hb : noBraces b = true) : noBraces (a ++ b) = true := by
  simp only [noBraces, List.all_append, Bool.and_eq_true] at *
  exact ⟨ha, hb⟩

theorem placeholderNamesF_of_noBraces :
    ∀ (fuel : Nat) (cs : List Char), noBraces cs = true →
      placeholderNamesF fuel cs = [] := by
  intro fuel
  induction fuel with
  | zero => intro cs _; cases cs <;> rfl
  | succ n ih =>
    intro cs h
    cases cs with
    | nil => rfl
    | cons c rest =>
      simp only [noBraces, List.all_cons, Bool.and_eq_true] at h
      obtain ⟨⟨hc1, _⟩, hrest⟩ := h
      have hcne : ¬(c = '\x7b') := by
        intro hx; subst hx; simp at hc1
      simp only [placeholderNamesF, if_neg hcne]
      exact ih rest (by simpa [noBraces] using hrest)

/-! Step equations for the template scanners (each arm of the fuel
recursion, conditioned on the shape of `dropWhile isNotRBrace`). -/

theorem formatScanF_openNil (args : List (String × String)) (n : Nat)
    (rest : List Char) (hd : rest.dropWhile isNotRBrace = []) :
    formatScanF args (n + 1) ('\x7b' :: rest) = .error .valueError := by
  show (match rest.dropWhile isNotRBrace with
    | [] => (.error .valueError : Except FormatError (List Char))
    | _ :: rest2 =>
      match alGet args ((rest.takeWhile isNotRBrace).asString) with
      | some v => (formatScanF args n rest2).map (v.data ++ ·)
      | none => .error (.keyError ((rest.takeWhile isNotRBrace).asString))) =
    .error .valueError
  rw [hd]

theorem formatScanF_openCons (args : List (String × String)) (n : Nat)
    (rest : List Char) (c2 : Char) (rest2 : List Char)
    (hd : rest.dropWhile isNotRBrace = c2 :: rest2) :
    formatScanF args (n + 1) ('\x7b' :: rest) =
      (match alGet args ((rest.takeWhile isNotRBrace).asString) with
       | some v => (formatScanF args n rest2).map (v.data ++ ·)
       | none => .error (.keyError ((rest.takeWhile isNotRBrace).asString))) := by
  show (match rest.dropWhile isNotRBrace with
    | [] => (.error .valueError : Except FormatError (List Char))
    | _ :: rest2 =>
      match alGet args ((rest.takeWhile isNotRBrace).asString) with
      | some v => (formatScanF args n rest2).map (v.data ++ ·)
      | none => .error (.keyError ((rest.takeWhile isNotRBrace).asString))) = _
  rw [hd]

theorem formatScanF_other (args : List (String × String)) (n : Nat) (c : Char)
    (rest : List Char) (hc : ¬c = '\x7b') (hc2 : ¬c = '\x7d') :
    formatScanF args (n + 1) (c :: rest) =
      (formatScanF args n rest).map (fun t => c :: t) := by
  simp only [formatScanF, if_neg hc, if_neg hc2]

theorem placeholderNamesF_openNil (n : Nat) (rest : List Char)
    (hd : rest.dropWhile isNotRBrace = []) :
    placeholderNamesF (n + 1) ('\x7b' :: rest) = [] := by
  show (match rest.dropWhile isNotRBrace with
    | [] => ([] : List String)
    | _ :: rest2 =>
      (rest.takeWhile isNotRBrace).asString :: placeholderNamesF n rest2) = []
  rw [hd]

theorem placeholderNamesF_openCons (n : Nat) (rest : List Char) (c2 : Char)
    (rest2 : List Char) (hd : rest.dropWhile isNotRBrace = c2 :: rest2) :
    placeholderNamesF (n + 1) ('\x7b' :: rest) =
      (rest.takeWhile isNotRBrace).asString :: placeholderNamesF n rest2 := by
  show (match rest.dropWhile isNotRBrace with
    | [] => ([] : List String)
    | _ :: rest2 =>
      (rest.takeWhile isNotRBrace).asString :: placeholderNamesF n rest2) = _
  rw [hd]

theorem placeholderNamesF_other (n : Nat) (c : Char) (rest : List Char)
    (hc : ¬c = '\x7b') :
    placeholderNamesF (n + 1) (c :: rest) = placeholderNamesF n rest := by
  simp only [placeholderNamesF, if_neg hc]

theorem bracesWellFormedF_openNil (n : Nat) (rest : List Char)
    (hd : rest.dropWhile isNotRBrace = []) :
    bracesWellFormedF (n + 1) ('\x7b' :: rest) = false := by
  show (match rest.dropWhile isNotRBrace with
    | [] => false
    | _ :: rest2 =>
      noBraces (rest.takeWhile isNotRBrace) && bracesWellFormedF n rest2) = false
  rw [hd]

theorem bracesWellFormedF_openCons (n : Nat) (rest : List Char) (c2 : Char)
    (rest2 : List Char) (hd : rest.dropWhile isNotRBrace = c2 :: rest2) :
    bracesWellFormedF (n + 1) ('\x7b' :: rest) =
      (noBraces (rest.takeWhile isNotRBrace) && bracesWellFormedF n rest2) := by
  show (match rest.dropWhile isNotRBrace with
    | [] => false
    | _ :: rest2 =>
      noBraces (rest.takeWhile isNotRBrace) && bracesWellFormedF n rest2) = _
  rw [hd]

theorem bracesWellFormedF_close (n : Nat) (rest : List Char) :
    bracesWellFormedF (n + 1) ('\x7d' :: rest) = false := rfl

theorem bracesWellFormedF_other (n : Nat) (c : Char) (rest : List Char)
    (hc : ¬c = '\x7b') (hc2 : ¬c = '\x7d') :
    bracesWellFormedF (n + 1) (c :: rest) = bracesWellFormedF n rest := by
  simp only [bracesWellFormedF, if_neg hc, if_neg hc2]

/-- The tail after a placeholder is shorter than the opening-brace
suffix it came from. -/
theorem dropWhile_cons_length_le {rest rest2 : List Char} {c2 : Char}
    (hd : rest.dropWhile isNotRBrace = c2 :: rest2) :
    rest2.length + 1 ≤ rest.length := by
  have h1 := (List.dropWhile_sublist (l := rest) isNotRBrace).length_le
  rw [hd] at h1
  simpa using h1

/-- Substitution success: on a well-formed template whose placeholder
names are all bound to brace-free values, the scan succeeds and the
result contains no brace at all (every placeholder got substituted). -/
theorem formatScanF_ok (args : List (String × String))
    (hvals : ∀ kv ∈ args, noBraces kv.2.data = true) :
    ∀ (fuel : Nat) (cs : List Char), cs.length ≤ fuel →
      bracesWellFormedF fuel cs = true →
      (∀ nm ∈ placeholderNamesF fuel cs, (alGet args nm).isSome = true) →
      ∃ t, formatScanF args fuel cs = .ok t ∧ noBraces t = true := by
  intro fuel
  induction fuel with
  | zero =>
    intro cs hlen _ _
    have : cs = [] := List.eq_nil_of_length_eq_zero (by omega)
    subst this
    exact ⟨[], rfl, rfl⟩
  | succ n ih =>
    intro cs hlen hwf hnames
    cases cs with
    | nil => exact ⟨[], rfl, rfl⟩
    | cons c rest =>
      simp only [List.length_cons] at hlen
      by_cases hc : c = '\x7b'
      · subst hc
        rcases hd : rest.dropWhile isNotRBrace with _ | ⟨c2, rest2⟩
        · rw [bracesWellFormedF_openNil n rest hd] at hwf
          simp at hwf
        · rw [bracesWellFormedF_openCons n rest c2 rest2 hd,
            Bool.and_eq_true] at hwf
          rw [placeholderNamesF_openCons n rest c2 rest2 hd] at hnames
          rw [formatScanF_openCons args n rest c2 rest2 hd]
          have hname0 := hnames ((rest.takeWhile isNotRBrace).asString) (by simp)
          rcases hv : alGet args ((rest.takeWhile isNotRBrace).asString) with _ | v
          · rw [hv] at hname0; simp at hname0
          · have hlen2 : rest2.length ≤ n := by
              have := dropWhile_cons_length_le hd
              omega
            have htail : ∀ nm ∈ placeholderNamesF n rest2,
                (alGet args nm).isSome = true := by
              intro nm hnm
              exact hnames nm (by simp [hnm])
            obtain ⟨t, hok, ht⟩ := ih rest2 hlen2 hwf.2 htail
            refine ⟨v.data ++ t, ?_, ?_⟩
            · show (formatScanF args n rest2).map (v.data ++ ·) = .ok (v.data ++ t)
              rw [hok]; rfl
            · obtain ⟨k', hk'⟩ := alGet_mem hv
              exact noBraces_append (hvals (k', v) hk') ht
      · by_cases hc2 : c = '\x7d'
        · subst hc2
          rw [bracesWellFormedF_close n rest] at hwf
          simp at hwf
        · rw [bracesWellFormedF_other n c rest hc hc2] at hwf
          rw [placeholderNamesF_other n c rest hc] at hnames
          rw [formatScanF_other args n c rest hc hc2]
          obtain ⟨t, hok, ht⟩ := ih rest (by omega) hwf hnames
          refine ⟨c :: t, ?_, ?_⟩
          · rw [hok]; rfl
          · simp only [noBraces, List.all_cons, Bool.and_eq_true]
            refine ⟨?_, by simpa [noBraces] using ht⟩
            simp [hc, hc2]

/-- Substitution failure: on a well-formed template with some unbound
placeholder name, the scan raises `KeyError` carrying an unbound name. -/
theorem formatScanF_missing (args : List (String × String)) :
    ∀ (fuel : Nat) (cs : List Char), cs.length ≤ fuel →
      bracesWellFormedF fuel cs = true →
      (∃ nm ∈ placeholderNamesF fuel cs, alGet args nm = none) →
      ∃ nm, formatScanF args fuel cs = .error (.keyError nm) ∧
        alGet args nm = none ∧ nm ∈ placeholderNamesF fuel cs := by
  intro fuel
  induction fuel with
  | zero =>
    intro cs hlen _ hmiss
    have : cs = [] := List.eq_nil_of_length_eq_zero (by omega)
    subst this
    simp [placeholderNamesF] at hmiss
  | succ n ih =>
    intro cs hlen hwf hmiss
    cases cs with
    | nil => simp [placeholderNamesF] at hmiss
    | cons c rest =>
      simp only [List.length_cons] at hlen
      by_cases hc : c = '\x7b'
      · subst hc
        rcases hd : rest.dropWhile isNotRBrace with _ | ⟨c2, rest2⟩
        · rw [bracesWellFormedF_openNil n rest hd] at hwf
          simp at hwf
        · rw [bracesWellFormedF_openCons n rest c2 rest2 hd,
            Bool.and_eq_true] at hwf
          rw [placeholderNamesF_openCons n rest c2 rest2 hd] at hmiss ⊢
          rw [formatScanF_openCons args n rest c2 rest2 hd]
          rcases hv : alGet args ((rest.takeWhile isNotRBrace).asString) with _ | v
          · exact ⟨(rest.takeWhile isNotRBrace).asString, rfl, hv, by simp⟩
          · have hlen2 : rest2.length ≤ n := by
              have := dropWhile_cons_length_le hd
              omega
            have htail : ∃ nm ∈ placeholderNamesF n rest2, alGet args nm = none := by
              obtain ⟨nm, hnm, hget⟩ := hmiss
              rcases List.mem_cons.mp hnm with hhd | htl
              · subst hhd; rw [hv] at hget; simp at hget
              · exact ⟨nm, htl, hget⟩
            obtain ⟨nm, herr, hget, hmem⟩ := ih rest2 hlen2 hwf.2 htail
            refine ⟨nm, ?_, hget, by simp [hmem]⟩
            show (formatScanF args n rest2).map (v.data ++ ·) =
              .error (.keyError nm)
            rw [herr]; rfl
      · by_cases hc2 : c = '\x7d'
        · subst hc2
          rw [bracesWellFormedF_close n rest] at hwf
          simp at hwf
        · rw [bracesWellFormedF_other n c rest hc hc2] at hwf
          rw [placeholderNamesF_other n c rest hc] at hmiss ⊢
          rw [formatScanF_other args n c rest hc hc2]
          obtain ⟨nm, herr, hget, hmem⟩ := ih rest (by omega) hwf hmiss
          exact ⟨nm, by rw [herr]; rfl, hget, hmem⟩


/-- C4 (amended): `_process_parameters_by_location` routes every payload
entry into exactly one of path/query/body according to its declared
location, defaulting to body; `_build_request_url` with a non-empty
`path_params` substitutes every placeholder of a well-formed URL
template (failing with `ValueError`, the code's realization of the
spec's `ArgumentError`, when a placeholder's parameter is missing),
while with an empty `path_params` the URL is passed through unchanged,
placeholders intact. -/
theorem C4_parameter_routing (parameter_locations : List (String × String)) :
    (∀ payload : List (String × String),
      process_parameters_by_location parameter_locations payload =
        (payload.filter (routesToPath parameter_locations),
         payload.filter (routesToQuery parameter_locations),
         payload.filter (routesToBody parameter_locations))) ∧
    (∀ p : String × String,
      (routesToPath parameter_locations p = true ∧
        routesToQuery parameter_locations p = false ∧
        routesToBody parameter_locations p = false) ∨
      (routesToPath parameter_locations p = false ∧
        routesToQuery parameter_locations p = true ∧
        routesToBody parameter_locations p = false) ∨
      (routesToPath parameter_locations p = false ∧
        routesToQuery parameter_locations p = false ∧
        routesToBody parameter_locations p = true)) ∧
    (∀ (url : String) (query_params : List (String × String)),
      build_request_url url [] query_params =
        .ok (if query_params.isEmpty then url
          else url ++ (if url.data.contains '?' then "&" else "?") ++
            urlencode query_params)) ∧
    (∀ (url : String) (path_params : List (String × String)),
      path_params.isEmpty = false →
      bracesWellFormed url.data = true →
      (∀ kv ∈ path_params, noBraces kv.2.data = true) →
      ((∀ nm ∈ placeholderNames url.data, (alGet path_params nm).isSome = true) →
        ∃ t, build_request_url url path_params [] = .ok t ∧
          placeholderNames t.data = []) ∧
      ((∃ nm ∈ placeholderNames url.data, alGet path_params nm = none) →
        ∃ nm, build_request_url url path_params [] =
            .error ("Missing required path parameter: " ++ nm) ∧
          alGet path_params nm = none ∧ nm ∈ placeholderNames url.data)) := by
  refine ⟨?_, ?_, ?_, ?_⟩
  · intro payload
    have key : ∀ (pl : List (String × String))
        (a b c : List (String × String)),
        pl.foldl
          (fun (acc : List (String × String) × List (String × String) ×
              List (String × String)) p =>
            let location := (alGet parameter_locations p.1).getD "body"
            if location == "path" then (acc.1 ++ [p], acc.2.1, acc.2.2)
            else if location == "query" then (acc.1, acc.2.1 ++ [p], acc.2.2)
            else (acc.1, acc.2.1, acc.2.2 ++ [p])) (a, b, c) =
          (a ++ pl.filter (routesToPath parameter_locations),
           b ++ pl.filter (routesToQuery parameter_locations),
           c ++ pl.filter (routesToBody parameter_locations)) := by
      intro pl
      induction pl with
      | nil => intro a b c; simp
      | cons p rest ihp =>
        intro a b c
        simp only [List.foldl_cons]
        by_cases hp : ((alGet parameter_locations p.1).getD "body") = "path"
        · have h1 : routesToPath parameter_locations p = true := by
            simp [routesToPath, hp]
          have h2 : routesToQuery parameter_locations p = false := by
            simp [routesToQuery, hp]
          have h3 : routesToBody parameter_locations p = false := by
            simp [routesToBody, h1]
          simp only [hp, beq_self_eq_true, if_pos]
          rw [ihp]
          simp [List.filter_cons, h1, h2, h3]
        · by_cases hq : ((alGet parameter_locations p.1).getD "body") = "query"
          · have h1 : routesToPath parameter_locations p = false := by
              simp [routesToPath, hq]
            have h2 : routesToQuery parameter_locations p = true := by
              simp [routesToQuery, hq]
            have h3 : routesToBody parameter_locations p = false := by
              simp [routesToBody, h2]
            rw [if_neg (by simpa using hp), if_pos (by simpa using hq)]
            rw [ihp]
            simp [List.filter_cons, h1, h2, h3]
          · have h1 : routesToPath parameter_locations p = false := by
              simp [routesToPath, hp]
            have h2 : routesToQuery parameter_locations p = false := by
              simp [routesToQuery, hq]
            have h3 : routesToBody parameter_locations p = true := by
              simp [routesToBody, h1, h2]
            rw [if_neg (by simpa using hp), if_neg (by simpa using hq)]
            rw [ihp]
            simp [List.filter_cons, h1, h2, h3]
    have := key payload [] [] []
    simpa [process_parameters_by_location] using this
  · intro p
    by_cases hp : routesToPath parameter_locations p = true
    · left
      have hq : routesToQuery parameter_locations p = false := by
        simp only [routesToPath, beq_iff_eq] at hp
        simp [routesToQuery, hp]
      exact ⟨hp, hq, by simp [routesToBody, hp]⟩
    · have hp' : routesToPath parameter_locations p = false := by
        simpa using hp
      by_cases hq : routesToQuery parameter_locations p = true
      · right; left
        exact ⟨hp', hq, by simp [routesToBody, hq]⟩
      · right; right
        have hq' : routesToQuery parameter_locations p = false := by simpa using hq
        exact ⟨hp', hq', by simp [routesToBody, hp', hq']⟩
  · intro url query_params
    cases query_params with
    | nil => rfl
    | cons q qs => rfl
  · intro url path_params hne hwf hvals
    constructor
    · intro hcov
      obtain ⟨t, hok, ht⟩ := formatScanF_ok path_params hvals url.data.length
        url.data (le_refl _) hwf hcov
      refine ⟨t.asString, ?_, ?_⟩
      · simp only [build_request_url, formatScan]
        rw [hok]
        simp [hne]
      · have : t.asString.data = t := by
          simp [List.asString]
        rw [this]
        exact placeholderNamesF_of_noBraces _ _ ht
    · intro hmiss
      obtain ⟨nm, herr, hget, hmem⟩ := formatScanF_missing path_params
        url.data.length url.data (le_refl _) hwf hmiss
      refine ⟨nm, ?_, hget, hmem⟩
      simp only [build_request_url, formatScan]
      rw [herr]
      simp [hne]

/-- Witness for C4 on a concrete action: url
`https://x/v1/users/\x7bid\x7d`, locations `\x7bid: path, q: query\x7d`,
payload `\x7bid: 7, q: a b\x7d` routes `id` to path and `q` to query,
and path substitution succeeds leaving no placeholder. -/
theorem C4_parameter_routing_witness :
    process_parameters_by_location [("id", "path"), ("q", "query")]
      [("id", "7"), ("q", "a b")] =
      ([("id", "7")], [("q", "a b")], []) ∧
    (∃ t, build_request_url "https://x/v1/users/\x7bid\x7d" [("id", "7")] [] =
        .ok t ∧ placeholderNames t.data = []) := by
  constructor
  · have h := (C4_parameter_routing [("id", "path"), ("q", "query")]).1
      [("id", "7"), ("q", "a b")]
    rw [h]
    decide
  · exact ((C4_parameter_routing [("id", "path"), ("q", "query")]).2.2.2
      "https://x/v1/users/\x7bid\x7d" [("id", "7")] (by decide) (by decide)
      (by decide)).1 (by decide)

/-- C4 counterexample to the claim as stated: with a payload carrying no
path-routed key, `_build_request_url` performs no substitution and
raises no error — the URL is dispatched with the `\x7bid\x7d`
placeholder intact, although its path parameter is missing. -/
theorem C4_parameter_routing_counterexample :
    build_request_url "https://x/v1/users/\x7bid\x7d" [] [] =
      .ok "https://x/v1/users/\x7bid\x7d" ∧
    placeholderNames "https://x/v1/users/\x7bid\x7d".data = ["id"] := by
  exact ⟨rfl, by decide⟩

/-! ## C2: projector pair preservation and uniqueness -/

theorem findAssociated_spec (resp : List (String × String))
    (processed : List String) :
    ∀ (l : List EventLog) (id ty ps : String),
      findAssociated resp processed l = some (id, ty, ps) →
      (alGet resp id).isSome = true ∧ processed.contains id = false := by
  intro l
  induction l with
  | nil => intro id ty ps h; simp [findAssociated] at h
  | cons e rest ih =>
    intro id ty ps h
    cases e with
    | actionStart idOpt ty' ps' phrase =>
      by_cases hcond : (!phrase && optStrTruthy idOpt &&
          (alGet resp (idOpt.getD "")).isSome &&
          !(processed.contains (idOpt.getD ""))) = true
      · rw [findAssociated, if_pos hcond] at h
        simp only [Option.some_inj, Prod.mk.injEq] at h
        obtain ⟨h1, _, _⟩ := h
        subst h1
        simp only [Bool.and_eq_true, Bool.not_eq_true'] at hcond
        exact ⟨hcond.1.2, hcond.2⟩
      · rw [findAssociated, if_neg hcond] at h
        split at h <;> exact ih id ty ps h
    | message sender text meta =>
      cases sender with
      | human => simp [findAssociated] at h
      | bot => exact ih id ty ps (by simpa [findAssociated] using h)
    | actionFinish a b c => exact ih id ty ps (by simpa [findAssociated] using h)
    | conference t => exact ih id ty ps (by simpa [findAssociated] using h)

theorem pairOk_cons_nonTool {m : ChatMessage} {rest : List ChatMessage}
    (hm : (m.role == ChatRole.tool) = false) (h : pairOk rest = true) :
    pairOk (m :: rest) = true := by
  simp only [pairOk, Bool.and_eq_true, Bool.not_eq_true']
  exact ⟨hm, pairedAfter_of_pairOk h m⟩

theorem pairOk_asst_tool (id ty ps result : String) (content : Option String)
    {rest : List ChatMessage} (h : pairOk rest = true) :
    pairOk ((⟨.assistant, content, [⟨id, ty, ps⟩], none⟩ : ChatMessage) ::
      (⟨.tool, some result, [], some id⟩ : ChatMessage) :: rest) = true := by
  simp only [pairOk, pairedAfter, toolPairedWith, Bool.and_eq_true,
    Bool.not_eq_true']
  refine ⟨rfl, ?_, pairedAfter_of_pairOk h _⟩
  simp

theorem buildChatMessages_pairOk (resp : List (String × String)) :
    ∀ (l : List EventLog) (processed : List String),
      pairOk (buildChatMessages resp l processed) = true := by
  intro l
  induction l with
  | nil => intro processed; rfl
  | cons e rest ih =>
    intro processed
    cases e with
    | message sender text meta =>
      by_cases hempty : ((pyStrip text).length == 0) = true
      · simpa [buildChatMessages, hempty] using ih processed
      · cases sender with
        | bot =>
          rcases hfa : findAssociated resp processed (rest.take 4) with _ | ⟨id, ty, ps⟩
          · simp only [buildChatMessages, hempty, hfa]
            simp only [Bool.false_eq_true, if_false]
            exact pairOk_cons_nonTool rfl (ih processed)
          · obtain ⟨hsome, _⟩ := findAssociated_spec resp processed _ id ty ps hfa
            obtain ⟨result, hres⟩ := Option.isSome_iff_exists.mp hsome
            simp only [buildChatMessages, hempty, hfa, hres]
            simp only [Bool.false_eq_true, if_false, List.singleton_append]
            exact pairOk_asst_tool id ty ps result (some text) (ih _)
        | human =>
          simp only [buildChatMessages, hempty]
          simp only [Bool.false_eq_true, if_false]
          exact pairOk_cons_nonTool rfl (ih processed)
    | actionStart idOpt ty ps phrase =>
      simp only [buildChatMessages]
      split
      · exact ih processed
      · rcases hres : alGet resp (idOpt.getD "") with _ | result
        · simpa [hres] using ih processed
        · simp only [hres]
          exact pairOk_asst_tool _ ty ps result none (ih _)
    | actionFinish a b c => simpa [buildChatMessages] using ih processed
    | conference t =>
      simp only [buildChatMessages]
      exact pairOk_cons_nonTool rfl (ih processed)

/-- Pair preservation for the full projector output (shared by the C2
and C3 theorems). -/
theorem projector_pairOk (merged_event_logs : List EventLog)
    (prompt_preamble : String) :
    pairOk (get_openai_chat_messages_from_transcript merged_event_logs
      prompt_preamble) = true :=
  pairOk_cons_nonTool rfl
    (buildChatMessages_pairOk (tool_call_to_response merged_event_logs)
      merged_event_logs [])

theorem toolMsgCount_cons (id : String) (m : ChatMessage)
    (rest : List ChatMessage) :
    toolMsgCount id (m :: rest) =
      toolMsgCount id rest +
        (if (m.role == ChatRole.tool && m.tool_call_id == some id) = true
          then 1 else 0) := by
  simp only [toolMsgCount, List.filter_cons]
  split
  · simp [List.length_cons, Nat.add_comm]
  · simp

theorem toolCallEntryCount_cons (id : String) (m : ChatMessage)
    (rest : List ChatMessage) :
    toolCallEntryCount id (m :: rest) =
      (m.tool_calls.filter (fun tc => tc.id == id)).length +
        toolCallEntryCount id rest := by
  simp [toolCallEntryCount]

theorem buildChatMessages_counts (resp : List (String × String)) :
    ∀ (l : List EventLog) (processed : List String) (id : String),
      (processed.contains id = true →
        toolMsgCount id (buildChatMessages resp l processed) = 0 ∧
        toolCallEntryCount id (buildChatMessages resp l processed) = 0) ∧
      toolMsgCount id (buildChatMessages resp l processed) ≤ 1 ∧
      toolCallEntryCount id (buildChatMessages resp l processed) ≤ 1 := by
  intro l
  induction l with
  | nil =>
    intro processed id
    refine ⟨fun _ => ⟨rfl, rfl⟩, ?_, ?_⟩ <;> simp [buildChatMessages, toolMsgCount, toolCallEntryCount]
  | cons e rest ih =>
    intro processed id
    have plain : ∀ (role : ChatRole) (content : Option String),
        (role == ChatRole.tool) = false →
        ∀ tail, toolMsgCount id ((⟨role, content, [], none⟩ : ChatMessage) :: tail) =
          toolMsgCount id tail ∧
        toolCallEntryCount id ((⟨role, content, [], none⟩ : ChatMessage) :: tail) =
          toolCallEntryCount id tail := by
      intro role content hrole tail
      constructor
      · rw [toolMsgCount_cons]
        simp [hrole]
      · rw [toolCallEntryCount_cons]
        simp
    have emit : ∀ (a ty ps result : String) (content : Option String) tail,
        toolMsgCount id
            ((⟨.assistant, content, [⟨a, ty, ps⟩], none⟩ : ChatMessage) ::
             (⟨.tool, some result, [], some a⟩ : ChatMessage) :: tail) =
          toolMsgCount id tail + (if a = id then 1 else 0) ∧
        toolCallEntryCount id
            ((⟨.assistant, content, [⟨a, ty, ps⟩], none⟩ : ChatMessage) ::
             (⟨.tool, some result, [], some a⟩ : ChatMessage) :: tail) =
          toolCallEntryCount id tail + (if a = id then 1 else 0) := by
      intro a ty ps result content tail
      constructor
      · rw [toolMsgCount_cons, toolMsgCount_cons]
        by_cases hid : a = id
        · subst hid; simp
        · simp [hid, Ne.symm hid]
      · rw [toolCallEntryCount_cons, toolCallEntryCount_cons]
        by_cases hid : a = id
        · subst hid; simp [List.filter_cons, Nat.add_comm]
        · simp [List.filter_cons, hid, Ne.symm hid]
    cases e with
    | message sender text meta =>
      by_cases hempty : ((pyStrip text).length == 0) = true
      · simpa [buildChatMessages, hempty] using ih processed id
      · cases sender with
        | bot =>
          rcases hfa : findAssociated resp processed (rest.take 4) with _ | ⟨a, ty, ps⟩
          · simp only [buildChatMessages, hempty, hfa, Bool.false_eq_true, if_false]
            obtain ⟨hp, h1, h2⟩ := ih processed id
            obtain ⟨e1, e2⟩ := plain .assistant (some text) rfl _
            rw [e1, e2]
            exact ⟨hp, h1, h2⟩
          · obtain ⟨hsome, hnotproc⟩ := findAssociated_spec resp processed _ a ty ps hfa
            obtain ⟨result, hres⟩ := Option.isSome_iff_exists.mp hsome
            simp only [buildChatMessages, hempty, hfa, hres, Bool.false_eq_true,
              if_false, List.cons_append, List.singleton_append, List.nil_append]
            obtain ⟨e1, e2⟩ := emit a ty ps result (some text)
              (buildChatMessages resp rest (a :: processed))
            rw [e1, e2]
            obtain ⟨hp', h1', h2'⟩ := ih (a :: processed) id
            have hnotmem : a ∉ processed := by simpa using hnotproc
            by_cases hid : a = id
            · subst hid
              have hz := hp' (by simp)
              rw [hz.1, hz.2]
              exact ⟨fun hpc => absurd (by simpa using hpc) hnotmem,
                by simp, by simp⟩
            · simp only [hid, if_false, Nat.add_zero]
              refine ⟨fun hpc => ?_, h1', h2'⟩
              have hmem : id ∈ processed := by simpa using hpc
              exact hp' (by simp [hmem])
        | human =>
          simp only [buildChatMessages, hempty, Bool.false_eq_true, if_false]
          obtain ⟨hp, h1, h2⟩ := ih processed id
          obtain ⟨e1, e2⟩ := plain .user (some text) rfl _
          rw [e1, e2]
          exact ⟨hp, h1, h2⟩
    | actionStart idOpt ty ps phrase =>
      simp only [buildChatMessages]
      split
      · exact ih processed id
      · rename_i hns
        rcases hres : alGet resp (idOpt.getD "") with _ | result
        · simpa [hres] using ih processed id
        · simp only [hres]
          obtain ⟨e1, e2⟩ := emit (idOpt.getD "") ty ps result none
            (buildChatMessages resp rest ((idOpt.getD "") :: processed))
          rw [e1, e2]
          obtain ⟨hp', h1', h2'⟩ := ih ((idOpt.getD "") :: processed) id
          have hnotproc : processed.contains (idOpt.getD "") = false := by
            simp only [Bool.or_eq_true, not_or, Bool.not_eq_true] at hns
            exact hns.2
          have hnotmem : (idOpt.getD "") ∉ processed := by simpa using hnotproc
          by_cases hid : (idOpt.getD "") = id
          · subst hid
            have hz := hp' (by simp)
            rw [hz.1, hz.2]
            exact ⟨fun hpc => absurd (by simpa using hpc) hnotmem,
              by simp, by simp⟩
          · simp only [hid, if_false, Nat.add_zero]
            refine ⟨fun hpc => ?_, h1', h2'⟩
            have hmem : id ∈ processed := by simpa using hpc
            exact hp' (by simp [hmem])
    | actionFinish a b c => simpa [buildChatMessages] using ih processed id
    | conference t =>
      simp only [buildChatMessages]
      obtain ⟨hp, h1, h2⟩ := ih processed id
      obtain ⟨e1, e2⟩ := plain .user (some t) rfl _
      rw [e1, e2]
      exact ⟨hp, h1, h2⟩

/-- C2: in the projector's output, every `\x7brole: tool,
tool_call_id: X\x7d` message is immediately preceded by an assistant
message whose `tool_calls` contains id X (and no tool message comes
first), and no tool_call_id is projected more than once: at most one
tool message and at most one `tool_calls` entry per id. -/
theorem C2_pair_preservation_and_uniqueness
    (merged_event_logs : List EventLog) (prompt_preamble : String) :
    pairOk (get_openai_chat_messages_from_transcript merged_event_logs
      prompt_preamble) = true ∧
    (∀ id : String,
      toolMsgCount id (get_openai_chat_messages_from_transcript
        merged_event_logs prompt_preamble) ≤ 1 ∧
      toolCallEntryCount id (get_openai_chat_messages_from_transcript
        merged_event_logs prompt_preamble) ≤ 1) := by
  refine ⟨projector_pairOk _ _, fun id => ?_⟩
  have h := buildChatMessages_counts (tool_call_to_response merged_event_logs)
    merged_event_logs [] id
  constructor
  · simp only [get_openai_chat_messages_from_transcript]
    rw [toolMsgCount_cons]
    simpa using h.2.1
  · simp only [get_openai_chat_messages_from_transcript]
    rw [toolCallEntryCount_cons]
    simpa using h.2.2

/-! ## C3: context-window truncation -/

theorem popFirstSafe_length : ∀ {l l' : List ChatMessage},
    popFirstSafe l = some l' → l'.length + 1 = l.length := by
  intro l
  induction l with
  | nil => intro l' h; simp [popFirstSafe] at h
  | cons m rest ih =>
    intro l' h
    by_cases hs : isSafeToRemove m
    · simp [popFirstSafe, hs] at h
      subst h; rfl
    · simp [popFirstSafe, hs] at h
      obtain ⟨l'', hl'', rfl⟩ := h
      simp [← ih hl'']

theorem trimStep_length {msgs : List ChatMessage} (h : 2 ≤ msgs.length) :
    (trimStep msgs).1.length + 1 = msgs.length := by
  match msgs with
  | [] => simp at h
  | first :: rest =>
    simp only [trimStep]
    cases hp : popFirstSafe rest with
    | some rest' =>
      have := popFirstSafe_length hp
      simp [← this]
    | none =>
      simp at h ⊢
      omega

theorem trimLoopF_nil (encodeLen : String → Nat) (functionTokens : Nat)
    (threshold : Int) :
    ∀ (fuel : Nat) (esc : Bool),
      trimLoopF encodeLen functionTokens threshold fuel [] esc = ([], esc) := by
  intro fuel esc
  cases fuel with
  | zero => rfl
  | succ n =>
    simp only [trimLoopF]
    split
    · simp
    · rfl

theorem trimLoopF_congr (encodeLen : String → Nat) (functionTokens : Nat)
    (threshold : Int) :
    ∀ (f1 : Nat) (msgs : List ChatMessage) (f2 : Nat) (esc : Bool),
      msgs.length ≤ f1 → msgs.length ≤ f2 →
      trimLoopF encodeLen functionTokens threshold f1 msgs esc =
        trimLoopF encodeLen functionTokens threshold f2 msgs esc := by
  intro f1
  induction f1 with
  | zero =>
    intro msgs f2 esc h1 _
    have : msgs = [] := List.eq_nil_of_length_eq_zero (by omega)
    subst this
    rw [trimLoopF_nil, trimLoopF_nil]
  | succ n ih =>
    intro msgs f2 esc h1 h2
    cases f2 with
    | zero =>
      have : msgs = [] := List.eq_nil_of_length_eq_zero (by omega)
      subst this
      rw [trimLoopF_nil, trimLoopF_nil]
    | succ m =>
      simp only [trimLoopF]
      split
      · split
        · rfl
        · rename_i hlen
          have hlen2 : 2 ≤ msgs.length := by omega
          have hstep := trimStep_length hlen2
          exact ih (trimStep msgs).1 m (esc || (trimStep msgs).2)
            (by omega) (by omega)
      · rfl

/-- The fuelled loop satisfies the defining recurrence of the
`while context_size > ...` loop, certifying that `trimLoop` is the
loop's exact semantics. -/
theorem trimLoop_recurrence (encodeLen : String → Nat) (functionTokens : Nat)
    (threshold : Int) (msgs : List ChatMessage) (esc : Bool) :
    trimLoop encodeLen functionTokens threshold msgs esc =
      if (num_tokens_from_messages encodeLen msgs + functionTokens : Int) >
          threshold then
        if msgs.length ≤ 1 then (msgs, esc)
        else trimLoop encodeLen functionTokens threshold (trimStep msgs).1
          (esc || (trimStep msgs).2)
      else (msgs, esc) := by
  unfold trimLoop
  rcases msgs with _ | ⟨m, rest⟩
  · rw [trimLoopF_nil]
    split
    · simp
    · rfl
  · simp only [List.length_cons, trimLoopF]
    split
    · split
      · rfl
      · rename_i h1 h2
        apply trimLoopF_congr
        · have h2' : 2 ≤ (m :: rest).length := by
            simp only [List.length_cons] at h2 ⊢
            omega
          have hstep := trimStep_length h2'
          simp only [List.length_cons] at hstep
          omega
        · exact le_refl _
    · rfl

theorem popFirstSafe_none_of_all : ∀ {l : List ChatMessage},
    l.any isSafeToRemove = false → popFirstSafe l = none := by
  intro l
  induction l with
  | nil => intro _; rfl
  | cons m rest ih =>
    intro h
    simp only [List.any_cons, Bool.or_eq_false_iff] at h
    simp [popFirstSafe, h.1, ih h.2]

theorem popFirstSafe_eq_eraseIdx : ∀ {l : List ChatMessage},
    l.any isSafeToRemove = true →
    popFirstSafe l = some (l.eraseIdx (l.findIdx isSafeToRemove)) := by
  intro l
  induction l with
  | nil => intro h; simp at h
  | cons m rest ih =>
    intro h
    by_cases hs : isSafeToRemove m
    · simp [popFirstSafe, hs, List.findIdx_cons, List.eraseIdx]
    · have hrest : rest.any isSafeToRemove = true := by
        simp only [List.any_cons, hs] at h
        simpa using h
      simp [popFirstSafe, hs, ih hrest, List.findIdx_cons, List.eraseIdx]

theorem pairedAfter_popFirstSafe :
    ∀ (l l' : List ChatMessage) (prev : ChatMessage),
      popFirstSafe l = some l' → pairedAfter prev l = true →
      pairedAfter prev l' = true := by
  intro l
  induction l with
  | nil => intro l' prev h _; simp [popFirstSafe] at h
  | cons m rest ih =>
    intro l' prev h hp
    simp only [pairedAfter, Bool.and_eq_true] at hp
    by_cases hs : isSafeToRemove m
    · simp only [popFirstSafe, hs, if_true, Option.some_inj] at h
      subst h
      cases rest with
      | nil => rfl
      | cons x xs =>
        simp only [pairedAfter, Bool.and_eq_true] at hp ⊢
        refine ⟨?_, hp.2.2⟩
        by_cases hx : (x.role == ChatRole.tool) = true
        · exfalso
          have hm := hp.2.1
          simp only [toolPairedWith, hx, if_true, Bool.and_eq_true] at hm
          obtain ⟨hmr, hmt⟩ := hm
          rcases hxid : x.tool_call_id with _ | xid
          · rw [hxid] at hmt; simp at hmt
          · rw [hxid] at hmt
            have hnonempty : m.tool_calls.isEmpty = false := by
              rcases htc : m.tool_calls with _ | ⟨tc, tcs⟩
              · rw [htc] at hmt; simp at hmt
              · simp [htc]
            simp only [isSafeToRemove, Bool.and_eq_true, Bool.not_eq_true'] at hs
            rw [beq_iff_eq] at hmr
            simp [hmr, hnonempty] at hs
        · simp only [toolPairedWith]
          rw [if_neg (by simpa using hx)]
    · rw [show popFirstSafe (m :: rest) = (popFirstSafe rest).map (m :: ·) from by
        simp only [popFirstSafe]; rw [if_neg hs]] at h
      rcases hrest : popFirstSafe rest with _ | rest''
      · rw [hrest] at h; simp at h
      · rw [hrest] at h
        simp only [Option.map_some', Option.some_inj] at h
        subst h
        simp only [pairedAfter, Bool.and_eq_true]
        exact ⟨hp.1, ih rest'' m hrest hp.2⟩

theorem pairOk_trimStep_safe {msgs : List ChatMessage}
    (hp : pairOk msgs = true) (hflag : (trimStep msgs).2 = false) :
    pairOk (trimStep msgs).1 = true := by
  cases msgs with
  | nil => simp [trimStep] at hflag
  | cons first rest =>
    rcases hps : popFirstSafe rest with _ | rest'
    · rw [show trimStep (first :: rest) = (first :: rest.drop 1, true) from by
        simp [trimStep, hps]] at hflag
      exact absurd hflag (by simp)
    · rw [show trimStep (first :: rest) = (first :: rest', false) from by
        simp [trimStep, hps]]
      simp only [pairOk, Bool.and_eq_true] at hp ⊢
      exact ⟨hp.1, pairedAfter_popFirstSafe rest rest' first hps hp.2⟩

theorem trimLoopF_flag_mono (encodeLen : String → Nat) (functionTokens : Nat)
    (threshold : Int) :
    ∀ (fuel : Nat) (msgs : List ChatMessage),
      (trimLoopF encodeLen functionTokens threshold fuel msgs true).2 = true := by
  intro fuel
  induction fuel with
  | zero => intro msgs; rfl
  | succ n ih =>
    intro msgs
    simp only [trimLoopF]
    split
    · split
      · rfl
      · simpa using ih (trimStep msgs).1
    · rfl

theorem trimLoopF_pairOk (encodeLen : String → Nat) (functionTokens : Nat)
    (threshold : Int) :
    ∀ (fuel : Nat) (msgs : List ChatMessage) (esc : Bool),
      pairOk msgs = true →
      (trimLoopF encodeLen functionTokens threshold fuel msgs esc).2 = false →
      pairOk (trimLoopF encodeLen functionTokens threshold fuel msgs esc).1 =
        true := by
  intro fuel
  induction fuel with
  | zero => intro msgs esc hp _; exact hp
  | succ n ih =>
    intro msgs esc hp hflag
    simp only [trimLoopF] at hflag ⊢
    by_cases h1 : (num_tokens_from_messages encodeLen msgs + functionTokens : Int) >
        threshold
    · by_cases h2 : msgs.length ≤ 1
      · rw [if_pos h1, if_pos h2]
        exact hp
      · rw [if_pos h1, if_neg h2] at hflag ⊢
        have hstep : (trimStep msgs).2 = false := by
          by_contra hcon
          rw [Bool.not_eq_false] at hcon
          rw [hcon, Bool.or_true, trimLoopF_flag_mono] at hflag
          exact Bool.noConfusion hflag
        exact ih (trimStep msgs).1 (esc || (trimStep msgs).2)
          (pairOk_trimStep_safe hp hstep) hflag
    · rw [if_neg h1]
      exact hp

/-- C3 (amended): each truncation iteration removes the first message at
index 1 or later that is neither the system prompt, nor a tool
response, nor an assistant message carrying `tool_calls`, and removes
index 1 unconditionally exactly when no such safe message exists; and
whenever the trimming run never resorts to that escape hatch, the
returned message list still satisfies pair preservation. -/
theorem C3_truncation_safety (encodeLen : String → Nat)
    (functionTokens : Nat) (reserved : Int) (event_logs : List EventLog)
    (model_name prompt_preamble : String) :
    (∀ msgs : List ChatMessage,
      (msgs.drop 1).any isSafeToRemove = true →
        trimStep msgs =
          (msgs.eraseIdx (1 + (msgs.drop 1).findIdx isSafeToRemove), false)) ∧
    (∀ msgs : List ChatMessage,
      (msgs.drop 1).any isSafeToRemove = false →
        trimStep msgs = (msgs.eraseIdx 1, true)) ∧
    (∀ (out : List ChatMessage) (escaped : Bool),
      formatWithEscapeFlag encodeLen functionTokens reserved event_logs
        model_name prompt_preamble = some (out, escaped) →
      escaped = false → pairOk out = true) := by
  refine ⟨?_, ?_, ?_⟩
  · intro msgs hany
    cases msgs with
    | nil => simp at hany
    | cons first rest =>
      simp only [List.drop_one, List.tail_cons] at hany
      simp only [trimStep, popFirstSafe_eq_eraseIdx hany, List.drop_one,
        List.tail_cons]
      rw [Nat.add_comm 1 (rest.findIdx isSafeToRemove), List.eraseIdx_cons_succ]
  · intro msgs hnone
    cases msgs with
    | nil => rfl
    | cons first rest =>
      simp only [List.drop_one, List.tail_cons] at hnone
      simp only [trimStep, popFirstSafe_none_of_all hnone]
      cases rest <;> rfl
  · intro out escaped hfmt hesc
    unfold formatWithEscapeFlag at hfmt
    split at hfmt
    · simp only [Option.some_inj] at hfmt
      have hp0 := projector_pairOk (merge_event_logs event_logs) prompt_preamble
      subst hesc
      have key := trimLoopF_pairOk encodeLen functionTokens
        (get_chat_gpt_max_tokens model_name - reserved - 50)
        (get_openai_chat_messages_from_transcript (merge_event_logs event_logs)
          prompt_preamble).length
        (get_openai_chat_messages_from_transcript (merge_event_logs event_logs)
          prompt_preamble) false hp0
      rw [show trimLoopF encodeLen functionTokens
          (get_chat_gpt_max_tokens model_name - reserved - 50)
          (get_openai_chat_messages_from_transcript (merge_event_logs event_logs)
            prompt_preamble).length
          (get_openai_chat_messages_from_transcript (merge_event_logs event_logs)
            prompt_preamble) false =
        (out, false) from ?_] at key
      · exact key rfl
      · rw [← hfmt]
        rfl
    · exact Option.noConfusion hfmt

/-- Witness for C3: on a concrete two-message list the step removes the
first safe message (the user message), and a concrete trimming run that
never needed the escape hatch returns a pair-preserving list. -/
theorem C3_truncation_safety_witness :
    trimStep [(⟨.system, some "p", [], none⟩ : ChatMessage),
        (⟨.user, some "hi", [], none⟩ : ChatMessage)] =
      ([(⟨.system, some "p", [], none⟩ : ChatMessage),
          (⟨.user, some "hi", [], none⟩ : ChatMessage)].eraseIdx
        (1 + [(⟨.user, some "hi", [], none⟩ : ChatMessage)].findIdx
          isSafeToRemove), false) ∧
    pairOk [(⟨.system, some "p", [], none⟩ : ChatMessage),
      (⟨.user, some "hi", [], none⟩ : ChatMessage)] = true :=
  ⟨(C3_truncation_safety String.length 0 0 [.message .human "hi" 0]
      "gpt-4o-mini" "p").1
      [⟨.system, some "p", [], none⟩, ⟨.user, some "hi", [], none⟩] (by decide),
   (C3_truncation_safety String.length 0 0 [.message .human "hi" 0]
      "gpt-4o-mini" "p").2.2
      [⟨.system, some "p", [], none⟩, ⟨.user, some "hi", [], none⟩] false
      rfl rfl⟩

set_option maxRecDepth 1000000 in
/-- C3 counterexample to unconditional truncation safety: a transcript
of two complete tool-call exchanges projects to
`[system, asst+tc, tool, asst+tc, tool]`; no safe message exists, so
the loop's escape hatch pops the first assistant, and trimming stops
with the first tool response orphaned — the returned list violates pair
preservation (`pairOk = false`, escape flag set). -/
theorem C3_truncation_safety_counterexample :
    (formatWithEscapeFlag String.length 0 998000
      [.actionStart (some "t1") "f" "p" false,
       .actionFinish (some "t1") (String.mk (List.replicate 450 'a')) false,
       .actionStart (some "t2") "g" "q" false,
       .actionFinish (some "t2") (String.mk (List.replicate 450 'b')) false]
      "gpt-4.1-nano" "").map (fun r => (pairOk r.1, r.2)) =
      some (false, true) := by
  decide

/-! ## C5: streaming tool-call demultiplexing -/

theorem beq_comm_false {κ : Type} [BEq κ] [LawfulBEq κ] {a b : κ}
    (h : (a == b) = false) : (b == a) = false := by
  simp only [beq_eq_false_iff_ne] at h ⊢
  exact Ne.symm h

theorem alGet_alSet_self {κ α : Type} [BEq κ] [LawfulBEq κ]
    (l : List (κ × α)) (k : κ) (v : α) : alGet (alSet l k v) k = some v := by
  induction l with
  | nil => simp [alGet, alSet, List.find?]
  | cons p rest ih =>
    simp only [alSet]
    by_cases h : (p.1 == k) = true
    · rw [if_pos h]
      simp [alGet, List.find?]
    · rw [if_neg h]
      have h' : (p.1 == k) = false := by simpa using h
      have hL : alGet (p :: alSet rest k v) k = alGet (alSet rest k v) k := by
        simp [alGet, List.find?, h']
      rw [hL]
      exact ih

theorem alGet_alSet_ne {κ α : Type} [BEq κ] [LawfulBEq κ]
    (l : List (κ × α)) (k j : κ) (v : α) (hne : (j == k) = false) :
    alGet (alSet l k v) j = alGet l j := by
  induction l with
  | nil => simp [alGet, alSet, List.find?, beq_comm_false hne]
  | cons p rest ih =>
    simp only [alSet]
    by_cases h : (p.1 == k) = true
    · rw [if_pos h]
      have hk : p.1 = k := by simpa using h
      have hpj : (p.1 == j) = false := by rw [hk]; exact beq_comm_false hne
      simp [alGet, List.find?, beq_comm_false hne, hpj]
    · rw [if_neg h]
      cases hpj : (p.1 == j)
      · have hL : alGet (p :: alSet rest k v) j = alGet (alSet rest k v) j := by
          simp [alGet, List.find?, hpj]
        have hR : alGet (p :: rest) j = alGet rest j := by
          simp [alGet, List.find?, hpj]
        rw [hL, hR]
        exact ih
      · have hL : alGet (p :: alSet rest k v) j = some p.2 := by
          simp [alGet, List.find?, hpj]
        have hR : alGet (p :: rest) j = some p.2 := by
          simp [alGet, List.find?, hpj]
        rw [hL, hR]

theorem namedToolFragmentCount_append (a b : List StreamOut) :
    namedToolFragmentCount (a ++ b) =
      namedToolFragmentCount a + namedToolFragmentCount b := by
  simp [namedToolFragmentCount, List.filter_append]

theorem namedToolFragmentCount_frag (n a i : String) :
    namedToolFragmentCount [StreamOut.fragment n a (some i)] =
      bif n.isEmpty then 0 else 1 := by
  cases hn : n.isEmpty <;>
    simp [namedToolFragmentCount, List.filter_cons, hn]

/-- An iteration that touches only the accumulators and yields nothing
keeps the invariant. -/
theorem noemit_invariant (st : List (Nat × ToolCallState)) (c : ToolCallState)
    (hsent : sentAt0 st = true → c.name_sent = true) :
    (sentAt0 st = true → sentAt0 (alSet st 0 c) = true ∧
      namedToolFragmentCount ([] : List StreamOut) = 0) ∧
    namedToolFragmentCount ([] : List StreamOut) ≤ 1 ∧
    (1 ≤ namedToolFragmentCount ([] : List StreamOut) →
      sentAt0 (alSet st 0 c) = true) := by
  refine ⟨fun h => ⟨?_, rfl⟩, Nat.zero_le 1, fun h => absurd h (by decide)⟩
  simp only [sentAt0, stateAt, alGet_alSet_self, Option.getD_some]
  exact hsent h

/-- The index-0 emitting branch sends the name exactly when it is
nonempty and not yet sent, and marks it sent. -/
theorem emit_invariant (st : List (Nat × ToolCallState))
    (idv namev argsv : String) (sentv : Bool)
    (args : String) (hsent : sentv = sentAt0 st) :
    (sentAt0 st = true →
        sentAt0 (alSet st 0
          (if (!sentv && !namev.isEmpty) = true
            then { id := idv, name := namev, arguments := argsv, name_sent := true }
            else { id := idv, name := namev, arguments := argsv, name_sent := sentv })) = true ∧
      namedToolFragmentCount
          [StreamOut.fragment
            (if (!sentv && !namev.isEmpty) = true then namev else "") args
            (some ((if (!sentv && !namev.isEmpty) = true
              then ({ id := idv, name := namev, arguments := argsv, name_sent := true } : ToolCallState)
              else { id := idv, name := namev, arguments := argsv, name_sent := sentv }).id))] = 0) ∧
    namedToolFragmentCount
        [StreamOut.fragment
          (if (!sentv && !namev.isEmpty) = true then namev else "") args
          (some ((if (!sentv && !namev.isEmpty) = true
            then ({ id := idv, name := namev, arguments := argsv, name_sent := true } : ToolCallState)
            else { id := idv, name := namev, arguments := argsv, name_sent := sentv }).id))] ≤ 1 ∧
    (1 ≤ namedToolFragmentCount
        [StreamOut.fragment
          (if (!sentv && !namev.isEmpty) = true then namev else "") args
          (some ((if (!sentv && !namev.isEmpty) = true
            then ({ id := idv, name := namev, arguments := argsv, name_sent := true } : ToolCallState)
            else { id := idv, name := namev, arguments := argsv, name_sent := sentv }).id))] →
      sentAt0 (alSet st 0
        (if (!sentv && !namev.isEmpty) = true
          then { id := idv, name := namev, arguments := argsv, name_sent := true }
          else { id := idv, name := namev, arguments := argsv, name_sent := sentv })) = true) := by
  have hpost : ∀ c : ToolCallState, sentAt0 (alSet st 0 c) = c.name_sent := by
    intro c
    simp [sentAt0, stateAt, alGet_alSet_self]
  cases sentv with
  | true =>
    simp only [Bool.not_true, Bool.false_and, Bool.false_eq_true, if_false]
    rw [hpost, namedToolFragmentCount_frag]
    have h0 : String.isEmpty "" = true := rfl
    simp [h0]
  | false =>
    have hs : sentAt0 st = false := hsent.symm
    cases hn : namev.isEmpty with
    | true =>
      simp only [Bool.not_false, Bool.not_true, Bool.true_and,
        Bool.false_eq_true, if_false]
      rw [hpost, namedToolFragmentCount_frag]
      have h0 : String.isEmpty "" = true := rfl
      simp [h0, hs]
    | false =>
      simp only [Bool.not_false, Bool.true_and, eq_self_iff_true, if_true]
      rw [hpost, namedToolFragmentCount_frag, hn]
      simp [hs]

/-- The fragment built by the emitting branch equals the one described
over the pre- and post-state accumulators. -/
theorem emit_out_eq (st : List (Nat × ToolCallState))
    (idv namev argsv : String) (sentv : Bool) (args : String)
    (hsent : sentv = (stateAt st 0).name_sent) :
    [StreamOut.fragment
      (if (!sentv && !namev.isEmpty) = true then namev else "") args
      (some ((if (!sentv && !namev.isEmpty) = true
        then ({ id := idv, name := namev, arguments := argsv, name_sent := true } : ToolCallState)
        else { id := idv, name := namev, arguments := argsv, name_sent := sentv }).id))] =
    [StreamOut.fragment
      (if (!(stateAt st 0).name_sent &&
          !(stateAt (alSet st 0
            (if (!sentv && !namev.isEmpty) = true
              then { id := idv, name := namev, arguments := argsv, name_sent := true }
              else { id := idv, name := namev, arguments := argsv, name_sent := sentv })) 0).name.isEmpty) = true
        then (stateAt (alSet st 0
          (if (!sentv && !namev.isEmpty) = true
            then { id := idv, name := namev, arguments := argsv, name_sent := true }
            else { id := idv, name := namev, arguments := argsv, name_sent := sentv })) 0).name
        else "") args
      (some (stateAt (alSet st 0
        (if (!sentv && !namev.isEmpty) = true
          then { id := idv, name := namev, arguments := argsv, name_sent := true }
          else { id := idv, name := namev, arguments := argsv, name_sent := sentv })) 0).id)] := by
  subst hsent
  simp only [stateAt, alGet_alSet_self, Option.getD_some]
  rw [apply_ite ToolCallState.name]
  dsimp only
  rw [ite_self]

/-- The four facts of claim C5 about one `tool_call_chunk` iteration. -/
theorem processToolCallChunk_characterization
    (st : List (Nat × ToolCallState)) (tc : ToolCallChunk) :
    (tc.index ≠ 0 → (processToolCallChunk st tc).2 = []) ∧
    (∀ j : Nat, j ≠ tc.index →
      alGet (processToolCallChunk st tc).1 j = alGet st j) ∧
    (∀ (f : ToolCallFunctionChunk) (args : String),
      tc.index = 0 → tc.function = some f → f.arguments = some args →
      args.isEmpty = false →
      (processToolCallChunk st tc).2 =
        [StreamOut.fragment
          (if (!(stateAt st 0).name_sent &&
              !(stateAt (processToolCallChunk st tc).1 0).name.isEmpty) = true
           then (stateAt (processToolCallChunk st tc).1 0).name else "")
          args
          (some (stateAt (processToolCallChunk st tc).1 0).id)]) ∧
    (tc.function = none ∨
        (∃ f, tc.function = some f ∧
          (f.arguments = none ∨ f.arguments = some "")) →
      (processToolCallChunk st tc).2 = []) := by
  obtain ⟨index, idOpt, fOpt⟩ := tc
  refine ⟨?_, ?_, ?_, ?_⟩
  · intro hidx
    rcases fOpt with _ | ⟨nameOpt, argsOpt⟩
    · rfl
    · rcases argsOpt with _ | args
      · rfl
      · by_cases he : args.isEmpty = true
        · simp only [processToolCallChunk]
          rw [if_pos he]
        · have hbeq : (index == 0) = false := by
            rw [beq_eq_false_iff_ne]; exact hidx
          simp only [processToolCallChunk]
          rw [if_neg (by simp [he])]
          rw [if_neg (by simp [hbeq])]
  · intro j hj
    have hbeq : (j == index) = false := by
      rw [beq_eq_false_iff_ne]; exact hj
    rcases fOpt with _ | ⟨nameOpt, argsOpt⟩
    · exact alGet_alSet_ne st index j _ hbeq
    · rcases argsOpt with _ | args
      · exact alGet_alSet_ne st index j _ hbeq
      · by_cases he : args.isEmpty = true
        · simp only [processToolCallChunk]
          rw [if_pos he]
          exact alGet_alSet_ne st index j _ hbeq
        · simp only [processToolCallChunk]
          rw [if_neg (by simp [he])]
          by_cases hz : (index == 0) = true
          · rw [if_pos hz]
            exact alGet_alSet_ne st index j _ hbeq
          · rw [if_neg hz]
            exact alGet_alSet_ne st index j _ hbeq
  · intro f args hidx hfun hargs hne
    subst hidx
    subst hfun
    obtain ⟨nameOpt, argsOpt⟩ := f
    change argsOpt = some args at hargs
    subst hargs
    simp only [processToolCallChunk]
    rw [if_neg (by simp [hne])]
    rw [if_pos (show ((0 : Nat) == 0) = true from rfl)]
    apply emit_out_eq st
    rcases idOpt with _ | i <;> rcases nameOpt with _ | n <;> (try dsimp only) <;>
      (try split) <;> (try split) <;> rfl
  · intro hcases
    rcases hcases with hnone | ⟨f, hsome, hargs⟩
    · subst hnone
      rfl
    · subst hsome
      obtain ⟨nameOpt, argsOpt⟩ := f
      rcases hargs with hnone | hempty
      · change argsOpt = none at hnone
        subst hnone
        rfl
      · change argsOpt = some "" at hempty
        subst hempty
        simp only [processToolCallChunk]
        rw [if_pos (show String.isEmpty "" = true from rfl)]

/-- One `tool_call_chunk` iteration preserves the "name already sent"
flag of index 0 and yields at most one named fragment, exactly when it
turns the flag on. -/
theorem processToolCallChunk_sent (st : List (Nat × ToolCallState))
    (tc : ToolCallChunk) :
    (sentAt0 st = true → sentAt0 (processToolCallChunk st tc).1 = true ∧
      namedToolFragmentCount (processToolCallChunk st tc).2 = 0) ∧
    namedToolFragmentCount (processToolCallChunk st tc).2 ≤ 1 ∧
    (1 ≤ namedToolFragmentCount (processToolCallChunk st tc).2 →
      sentAt0 (processToolCallChunk st tc).1 = true) := by
  obtain ⟨index, idOpt, fOpt⟩ := tc
  by_cases hz : (index == 0) = true
  · have hz' : index = 0 := by simpa using hz
    subst hz'
    rcases fOpt with _ | ⟨nameOpt, argsOpt⟩
    · apply noemit_invariant st
      intro h
      rcases idOpt with _ | i <;> (try dsimp only) <;> (try split) <;> exact h
    · rcases argsOpt with _ | args
      · apply noemit_invariant st
        intro h
        rcases idOpt with _ | i <;> rcases nameOpt with _ | n <;>
          (try dsimp only) <;> (try split) <;> (try split) <;> exact h
      · by_cases he : args.isEmpty = true
        · simp only [processToolCallChunk]
          rw [if_pos he]
          apply noemit_invariant st
          intro h
          rcases idOpt with _ | i <;> rcases nameOpt with _ | n <;>
            (try dsimp only) <;> (try split) <;> (try split) <;> exact h
        · rw [Bool.not_eq_true] at he
          simp only [processToolCallChunk]
          rw [if_neg (by simp [he])]
          rw [if_pos (show ((0 : Nat) == 0) = true from rfl)]
          apply emit_invariant st
          rcases idOpt with _ | i <;> rcases nameOpt with _ | n <;>
            (try dsimp only) <;> (try split) <;> (try split) <;> rfl
  · have hne : index ≠ 0 := by simpa using hz
    have houts : (processToolCallChunk st ⟨index, idOpt, fOpt⟩).2 = [] :=
      (processToolCallChunk_characterization st ⟨index, idOpt, fOpt⟩).1 hne
    have hstate : alGet (processToolCallChunk st ⟨index, idOpt, fOpt⟩).1 0 =
        alGet st 0 :=
      (processToolCallChunk_characterization st ⟨index, idOpt, fOpt⟩).2.1 0
        (Ne.symm hne)
    simp only [sentAt0, stateAt, houts, hstate]
    exact ⟨fun h => ⟨h, rfl⟩, Nat.zero_le 1, fun h => absurd h (by decide)⟩

theorem sentInv_same (st : List (Nat × ToolCallState)) (outs : List StreamOut)
    (hc : namedToolFragmentCount outs = 0) :
    (sentAt0 st = true → sentAt0 st = true ∧
      namedToolFragmentCount outs = 0) ∧
    namedToolFragmentCount outs ≤ 1 ∧
    (1 ≤ namedToolFragmentCount outs → sentAt0 st = true) :=
  ⟨fun h => ⟨h, hc⟩, by omega, fun h => absurd h (by omega)⟩

theorem sentInv_compose {b1 b2 b3 : Bool} {c1 c2 : Nat}
    (h1 : (b1 = true → b2 = true ∧ c1 = 0) ∧ c1 ≤ 1 ∧ (1 ≤ c1 → b2 = true))
    (h2 : (b2 = true → b3 = true ∧ c2 = 0) ∧ c2 ≤ 1 ∧ (1 ≤ c2 → b3 = true)) :
    (b1 = true → b3 = true ∧ c1 + c2 = 0) ∧ c1 + c2 ≤ 1 ∧
      (1 ≤ c1 + c2 → b3 = true) := by
  obtain ⟨h1a, h1b, h1c⟩ := h1
  obtain ⟨h2a, h2b, h2c⟩ := h2
  refine ⟨?_, ?_, ?_⟩
  · intro hb1
    obtain ⟨hb2, hc1⟩ := h1a hb1
    obtain ⟨hb3, hc2⟩ := h2a hb2
    exact ⟨hb3, by omega⟩
  · by_cases hcc : 1 ≤ c1
    · obtain ⟨_, hc2⟩ := h2a (h1c hcc)
      omega
    · omega
  · intro hcc
    by_cases hc2 : 1 ≤ c2
    · exact h2c hc2
    · exact (h2a (h1c (by omega))).1

/-- The `for tool_call_chunk in delta.tool_calls` loop with a nonempty
output accumulator decomposes into the empty-accumulator run. -/
theorem foldTC_decomp (tcs : List ToolCallChunk) :
    ∀ (st : List (Nat × ToolCallState)) (acc : List StreamOut),
      tcs.foldl
          (fun (acc : List (Nat × ToolCallState) × List StreamOut) tc =>
            let r := processToolCallChunk acc.1 tc
            (r.1, acc.2 ++ r.2)) (st, acc) =
        ((tcs.foldl
            (fun (acc : List (Nat × ToolCallState) × List StreamOut) tc =>
              let r := processToolCallChunk acc.1 tc
              (r.1, acc.2 ++ r.2)) (st, [])).1,
          acc ++ (tcs.foldl
            (fun (acc : List (Nat × ToolCallState) × List StreamOut) tc =>
              let r := processToolCallChunk acc.1 tc
              (r.1, acc.2 ++ r.2)) (st, [])).2) := by
  induction tcs with
  | nil =>
    intro st acc
    simp
  | cons tc rest ih =>
    intro st acc
    simp only [List.foldl_cons, List.nil_append]
    rw [ih]
    rw [ih ((processToolCallChunk st tc).1) ((processToolCallChunk st tc).2)]
    simp [List.append_assoc]

/-- The tool-call loop of one chunk keeps the invariant. -/
theorem foldTC_sent (tcs : List ToolCallChunk) :
    ∀ st : List (Nat × ToolCallState),
      (sentAt0 st = true →
          sentAt0 ((tcs.foldl
            (fun (acc : List (Nat × ToolCallState) × List StreamOut) tc =>
              let r := processToolCallChunk acc.1 tc
              (r.1, acc.2 ++ r.2)) (st, [])).1) = true ∧
          namedToolFragmentCount ((tcs.foldl
            (fun (acc : List (Nat × ToolCallState) × List StreamOut) tc =>
              let r := processToolCallChunk acc.1 tc
              (r.1, acc.2 ++ r.2)) (st, [])).2) = 0) ∧
        namedToolFragmentCount ((tcs.foldl
          (fun (acc : List (Nat × ToolCallState) × List StreamOut) tc =>
            let r := processToolCallChunk acc.1 tc
            (r.1, acc.2 ++ r.2)) (st, [])).2) ≤ 1 ∧
        (1 ≤ namedToolFragmentCount ((tcs.foldl
            (fun (acc : List (Nat × ToolCallState) × List StreamOut) tc =>
              let r := processToolCallChunk acc.1 tc
              (r.1, acc.2 ++ r.2)) (st, [])).2) →
          sentAt0 ((tcs.foldl
            (fun (acc : List (Nat × ToolCallState) × List StreamOut) tc =>
              let r := processToolCallChunk acc.1 tc
              (r.1, acc.2 ++ r.2)) (st, [])).1) = true) := by
  induction tcs with
  | nil =>
    intro st
    simp only [List.foldl_nil]
    exact sentInv_same st [] rfl
  | cons tc rest ih =>
    intro st
    simp only [List.foldl_cons, List.nil_append]
    rw [foldTC_decomp rest]
    dsimp only
    rw [namedToolFragmentCount_append]
    exact sentInv_compose (processToolCallChunk_sent st tc)
      (ih ((processToolCallChunk st tc).1))

/-- One streamed chunk keeps the invariant. -/
theorem processChunk_sent (st : List (Nat × ToolCallState))
    (ev : ChatCompletionChunk) :
    (sentAt0 st = true → sentAt0 (processChunk st ev).1.1 = true ∧
      namedToolFragmentCount (processChunk st ev).1.2 = 0) ∧
    namedToolFragmentCount (processChunk st ev).1.2 ≤ 1 ∧
    (1 ≤ namedToolFragmentCount (processChunk st ev).1.2 →
      sentAt0 (processChunk st ev).1.1 = true) := by
  obtain ⟨choices⟩ := ev
  rcases choices with _ | ⟨⟨fr, content, toolcalls, funcall⟩, restc⟩
  · exact sentInv_same st _ rfl
  · by_cases hf : optStrTruthy fr = true
    · have hred : processChunk st ⟨⟨fr, content, toolcalls, funcall⟩ :: restc⟩ =
          ((st, []), true) := by
        simp only [processChunk]
        rw [if_pos hf]
      rw [hred]
      exact sentInv_same st [] rfl
    · rcases content with _ | token
      · rcases toolcalls with _ | tcs
        · rcases funcall with _ | fc
          · have hred : processChunk st
                ⟨⟨fr, none, none, none⟩ :: restc⟩ = ((st, []), false) := by
              simp only [processChunk]
              rw [if_neg hf]
            rw [hred]
            exact sentInv_same st [] rfl
          · have hred : processChunk st
                ⟨⟨fr, none, none, some fc⟩ :: restc⟩ =
                ((st, [StreamOut.fragment (fc.name.getD "")
                  (fc.arguments.getD "") none]), false) := by
              simp only [processChunk]
              rw [if_neg hf]
            rw [hred]
            exact sentInv_same st _ rfl
        · have hred : processChunk st
              ⟨⟨fr, none, some tcs, funcall⟩ :: restc⟩ =
              ((tcs.foldl
                (fun (acc : List (Nat × ToolCallState) × List StreamOut) tc =>
                  let r := processToolCallChunk acc.1 tc
                  (r.1, acc.2 ++ r.2)) (st, []), false)) := by
            simp only [processChunk]
            rw [if_neg hf]
          rw [hred]
          exact foldTC_sent tcs st
      · have hred : processChunk st
            ⟨⟨fr, some token, toolcalls, funcall⟩ :: restc⟩ =
            ((st, [StreamOut.token token]), false) := by
          simp only [processChunk]
          rw [if_neg hf]
        rw [hred]
        exact sentInv_same st _ rfl

/-- The whole run yields at most one named fragment, none once the
name has been marked sent. -/
theorem openaiGetTokensGo_sent (gen : List ChatCompletionChunk) :
    ∀ st : List (Nat × ToolCallState),
      (sentAt0 st = true →
        namedToolFragmentCount (openaiGetTokensGo gen st) = 0) ∧
      namedToolFragmentCount (openaiGetTokensGo gen st) ≤ 1 := by
  induction gen with
  | nil =>
    intro st
    exact ⟨fun _ => rfl, Nat.zero_le 1⟩
  | cons ev rest ih =>
    intro st
    by_cases hb : (processChunk st ev).2 = true
    · have hred : openaiGetTokensGo (ev :: rest) st = (processChunk st ev).1.2 := by
        simp only [openaiGetTokensGo]
        rw [if_pos hb]
      rw [hred]
      have A := processChunk_sent st ev
      exact ⟨fun h => (A.1 h).2, A.2.1⟩
    · have hred : openaiGetTokensGo (ev :: rest) st =
          (processChunk st ev).1.2 ++
            openaiGetTokensGo rest (processChunk st ev).1.1 := by
        simp only [openaiGetTokensGo]
        rw [if_neg hb]
      rw [hred, namedToolFragmentCount_append]
      have A := processChunk_sent st ev
      have B := ih ((processChunk st ev).1.1)
      constructor
      · intro h
        obtain ⟨h2, hc1⟩ := A.1 h
        have hc2 := B.1 h2
        omega
      · by_cases h1 : 1 ≤ namedToolFragmentCount (processChunk st ev).1.2
        · have hs2 := A.2.2 h1
          have hc2 := B.1 hs2
          have hb1 := A.2.1
          omega
        · have hb2 := B.2
          omega

/-- C5: `openai_get_tokens` surfaces only index-0 tool calls as
fragments. A chunk at a nonzero index yields nothing and leaves every
other index's accumulator unchanged; an index-0 chunk with truthy
incremental arguments yields exactly one fragment carrying those
incremental arguments, the accumulated tool call id, and the
accumulated name exactly when that name is nonempty and not yet sent
(an empty name otherwise); a chunk without truthy arguments yields
nothing; hence over a whole run at most one fragment carries a
nonempty name — amending the claim, which asserted the FIRST index-0
fragment carries the accumulated name: when arguments arrive before
the name, the name rides a LATER fragment. -/
theorem C5_tool_call_demultiplexing :
    (∀ (st : List (Nat × ToolCallState)) (tc : ToolCallChunk),
      tc.index ≠ 0 → (processToolCallChunk st tc).2 = []) ∧
    (∀ (st : List (Nat × ToolCallState)) (tc : ToolCallChunk) (j : Nat),
      j ≠ tc.index →
      alGet (processToolCallChunk st tc).1 j = alGet st j) ∧
    (∀ (st : List (Nat × ToolCallState)) (tc : ToolCallChunk)
      (f : ToolCallFunctionChunk) (args : String),
      tc.index = 0 → tc.function = some f → f.arguments = some args →
      args.isEmpty = false →
      (processToolCallChunk st tc).2 =
        [StreamOut.fragment
          (if (!(stateAt st 0).name_sent &&
              !(stateAt (processToolCallChunk st tc).1 0).name.isEmpty) = true
           then (stateAt (processToolCallChunk st tc).1 0).name else "")
          args
          (some (stateAt (processToolCallChunk st tc).1 0).id)]) ∧
    (∀ (st : List (Nat × ToolCallState)) (tc : ToolCallChunk),
      tc.function = none ∨
        (∃ f, tc.function = some f ∧
          (f.arguments = none ∨ f.arguments = some "")) →
      (processToolCallChunk st tc).2 = []) ∧
    (∀ gen : List ChatCompletionChunk,
      namedToolFragmentCount (openai_get_tokens gen) ≤ 1) := by
  refine ⟨?_, ?_, ?_, ?_, ?_⟩
  · intro st tc h
    exact (processToolCallChunk_characterization st tc).1 h
  · intro st tc j h
    exact (processToolCallChunk_characterization st tc).2.1 j h
  · intro st tc f args h1 h2 h3 h4
    exact (processToolCallChunk_characterization st tc).2.2.1 f args h1 h2 h3 h4
  · intro st tc h
    exact (processToolCallChunk_characterization st tc).2.2.2 h
  · intro gen
    exact (openaiGetTokensGo_sent gen []).2

/-- C5 witness: the theorem applied at concrete chunks. -/
theorem C5_tool_call_demultiplexing_witness :
    (processToolCallChunk [] ⟨1, some "c9", some ⟨some "f", some "a"⟩⟩).2 = [] ∧
    alGet (processToolCallChunk [] ⟨1, some "c9", some ⟨some "f", some "a"⟩⟩).1 0 =
      alGet ([] : List (Nat × ToolCallState)) 0 ∧
    (processToolCallChunk [] ⟨0, some "c1", some ⟨some "f", some "a"⟩⟩).2 =
      [StreamOut.fragment "f" "a" (some "c1")] ∧
    namedToolFragmentCount (openai_get_tokens
      [⟨[⟨none, ⟨none, some [⟨0, some "c1", some ⟨some "f", some "a"⟩⟩],
        none⟩⟩]⟩]) ≤ 1 :=
  ⟨C5_tool_call_demultiplexing.1 [] ⟨1, some "c9", some ⟨some "f", some "a"⟩⟩
      (by decide),
   C5_tool_call_demultiplexing.2.1 [] ⟨1, some "c9", some ⟨some "f", some "a"⟩⟩ 0
      (by decide),
   by
    rw [C5_tool_call_demultiplexing.2.2.1 [] ⟨0, some "c1", some ⟨some "f", some "a"⟩⟩
      ⟨some "f", some "a"⟩ "a" rfl rfl rfl (by decide)]
    decide,
   C5_tool_call_demultiplexing.2.2.2.2
      [⟨[⟨none, ⟨none, some [⟨0, some "c1", some ⟨some "f", some "a"⟩⟩], none⟩⟩]⟩]⟩

/-- C5 counterexample to the claim as stated: when the incremental
arguments arrive before the name, the first index-0 fragment carries an
empty name and a later fragment carries the accumulated name. -/
theorem C5_tool_call_demultiplexing_counterexample :
    openai_get_tokens
        [⟨[⟨none, ⟨none, some [⟨0, some "call1", some ⟨none, some "a"⟩⟩],
          none⟩⟩]⟩,
         ⟨[⟨none, ⟨none, some [⟨0, none, some ⟨some "f", some "b"⟩⟩],
          none⟩⟩]⟩] =
      [StreamOut.fragment "" "a" (some "call1"),
       StreamOut.fragment "f" "b" (some "call1")] ∧
    ("f" : String).isEmpty = false := by
  exact ⟨by decide, by decide⟩
end Vocode
